import Mathlib

/-!
Shallow embedding of the formatting / sort-key / template-namespace core of
the repository (src/src/pyrosimple/torrent/formatting.py) and of the
torrent-mover job (src/src/pyrosimple/job/move_torrent.py), together with
theorems settling the frozen claims about that code.

Python values relevant to the claims are modelled by `PyVal`; Python
exceptions by `PyErr`; fallible Python code by `Except PyErr`.  Python
floats are modelled exactly as rationals (`Rat`); no claim depends on
binary floating-point rounding, only on which inputs raise errors.
-/

/-- Model of the Python values the claims manipulate. -/

inductive PyVal where
  | none : PyVal
  | int : Int → PyVal
  | ratv : Rat → PyVal
  | str : String → PyVal
deriving DecidableEq

/-- Model of the Python exceptions raised by the embedded code, carrying
their message text. -/
inductive PyErr where
  | typeError (msg : String)
  | valueError (msg : String)
  | keyError (msg : String)
  | indexError (msg : String)
  | attributeError (msg : String)
  | nameError (msg : String)
  | userError (msg : String)
  | loggableError (msg : String)
  | external (msg : String)
deriving DecidableEq

/-- The exception classes caught by `OutputMapping.__getitem__`
(`except (TypeError, ValueError, KeyError, IndexError, AttributeError)`). -/
def PyErr.catchable : PyErr → Bool
  | .typeError _ => true
  | .valueError _ => true
  | .keyError _ => true
  | .indexError _ => true
  | .attributeError _ => true
  | _ => false

/-- Message text of an exception, as Python `str(exc)` renders it. -/
def PyErr.text : PyErr → String
  | .typeError m => m
  | .valueError m => m
  | .keyError m => m
  | .indexError m => m
  | .attributeError m => m
  | .nameError m => m
  | .userError m => m
  | .loggableError m => m
  | .external m => m

/-- A catalog formatter: one raw value in, one value out or an exception. -/
abbrev PyFormatter := PyVal → Except PyErr PyVal

/-- A defaults mapping (Python dict with string keys, insertion ordered). -/
abbrev PyDict := List (String × PyVal)

/-- An item offering named-attribute lookup (`getattr` returns `Option`;
a missing attribute is Python `AttributeError`). -/
abbrev PyItem := String → Option PyVal

/- ### String helpers (embeddings of the Python string operations used) -/

/-- Python `str.upper()` on the ASCII field names occurring here. -/
def pyUpper (s : String) : String := String.mk (s.toList.map Char.toUpper)

/-- Python `str.rjust(n)` (pad with spaces on the left). -/
def pyRjust (s : String) (n : Nat) : String :=
  if s.length ≥ n then s
  else String.mk (List.replicate (n - s.length) ' ') ++ s

/-- Python whitespace test used by `str.split()` / `str.strip()`. -/
def pyIsSpace (c : Char) : Bool := c = ' ' ∨ c = '\t' ∨ c = '\n' ∨ c = '\r'

/-- Python `str.strip()` (drop leading and trailing whitespace). -/
def pyStrip (s : String) : String :=
  String.mk (((s.toList.dropWhile pyIsSpace).reverse.dropWhile pyIsSpace).reverse)

/-- Helper for `pySplitWs`: split a character list on whitespace runs. -/
def wsSplitAux : List Char → List Char → List String
  | [], acc => if acc = [] then [] else [String.mk acc.reverse]
  | c :: rest, acc =>
    if pyIsSpace c then
      if acc = [] then wsSplitAux rest []
      else String.mk acc.reverse :: wsSplitAux rest []
    else wsSplitAux rest (c :: acc)

/-- Python `str.split()` with no argument: split on whitespace runs,
discarding empty pieces. -/
def pySplitWs (s : String) : List String := wsSplitAux s.toList []

/-- Python `str.replace(old, new)` for a one-character pattern, as used in
`fields.replace(",", " ")`. -/
def pyReplaceChar (s : String) (old new : Char) : String :=
  String.mk (s.toList.map (fun c => if c = old then new else c))

/-- Helper for `pySplitDots`: split a character list at every dot. -/
def splitDotsAux : List Char → List Char → List String
  | [], acc => [String.mk acc.reverse]
  | c :: rest, acc =>
    if c = '.' then String.mk acc.reverse :: splitDotsAux rest []
    else splitDotsAux rest (c :: acc)

/-- Python `s.split(".")` (also realising `s.split(".", 1)` followed by a
second unlimited split, which yields the same component list). -/
def pySplitDots (s : String) : List String := splitDotsAux s.toList []

/-- Python `c in s` for a single character. -/
def pyContainsChar (s : String) (c : Char) : Bool := s.toList.contains c

/-- Python `s.startswith(p)`. -/
def pyStarts (s p : String) : Bool := s.toList.take p.toList.length = p.toList

/-- Python `s[1:]`. -/
def pyDropOne (s : String) : String := String.mk (s.toList.drop 1)

/-- Python `repr` of the modelled values (used in error messages built
with the `%r` conversion). -/
def pyRepr : PyVal → String
  | .none => "None"
  | .int n => toString n
  | .ratv q => toString q.num ++ "/" ++ toString q.den
  | .str s => "\x27" ++ s ++ "\x27"

/-- Python `str()` of the modelled values. -/
def pyStr : PyVal → String
  | .none => "None"
  | .int n => toString n
  | .ratv q => toString q.num ++ "/" ++ toString q.den
  | .str s => s

/-- Python truthiness of the modelled values. -/
def pyTruthy : PyVal → Bool
  | .none => false
  | .int n => n ≠ 0
  | .ratv q => q ≠ 0
  | .str s => s ≠ ""

/-- Python `int(s, 10)`: optional surrounding whitespace, optional sign,
then at least one decimal digit. -/
def pyIntOfString (s : String) : Option Int :=
  let t := (pyStrip s).toList
  let (sign, ds) : Int × List Char :=
    match t with
    | '-' :: rest => (-1, rest)
    | '+' :: rest => (1, rest)
    | _ => (1, t)
  if ds ≠ [] ∧ ds.all Char.isDigit then
    some (sign * ((ds.foldl (fun a c => a * 10 + (c.toNat - '0'.toNat)) (0 : Nat) : Nat) : Int))
  else Option.none

/-- Python `float(x)` on the modelled values (exact rational model). -/
def pyFloat : PyVal → Except PyErr Rat
  | .int n => .ok (n : Rat)
  | .ratv q => .ok q
  | .str s =>
    match pyIntOfString s with
    | some n => .ok (n : Rat)
    | Option.none =>
      .error (.valueError ("could not convert string to float: " ++ "\x27" ++ s ++ "\x27"))
  | .none =>
    .error (.typeError "float() argument must be a string or a real number, not NoneType")

/-- Python `round(x)` on an exact rational: round-half-to-even. -/
def ratRoundHalfEven (x : Rat) : Int :=
  let f := x.floor
  let r := x - (f : Rat)
  if r < 1/2 then f
  else if (1:Rat)/2 < r then f + 1
  else if f % 2 = 0 then f else f + 1

/-- Python `round(x, 2)` on the exact rational model. -/
def pyRound2 (x : Rat) : Rat := (ratRoundHalfEven (x * 100) : Rat) / 100

/- ### Modelled collaborators from `pyrosimple.util.fmt`

The module `pyrosimple/util/fmt.py` is not among the given sources; only
its callers are.  Its behavior is modelled from the spec below. -/

/-- Render a positive rational with one fractional digit,
right-justified to width 6 (the `%6.1f` conversion). -/
def fmtSixOne (q : Rat) : String :=
  let n := ratRoundHalfEven (q * 10)
  pyRjust (toString (n / 10) ++ "." ++ toString (n % 10)) 6

/-- Core of the byte-size rendering on an integer byte count. -/
def human_size_num (n : Int) : String :=
  if n < 0 then "-??? bytes"
  else if n < 1024 then pyRjust (toString n) 4 ++ " bytes"
  else
    let k : Rat := (n : Rat) / 1024
    if k < 1024 then fmtSixOne k ++ " KiB"
    else
      let m := k / 1024
      if m < 1024 then fmtSixOne m ++ " MiB"
      else
        let g := m / 1024
        if g < 1024 then fmtSixOne g ++ " GiB"
        else fmtSixOne (g / 1024) ++ " TiB"

/-- Modelled from the spec: `fmt.human_size` (module `pyrosimple.util.fmt`
is not among the given sources).  Spec §4.1: a human-readable byte count
whose zero-value rendering fixes the placeholder width.  A string argument
is first read as a base-10 integer (`ValueError` when malformed); `None`
fails the size comparison with a `TypeError`; the zero-value success
output is the ten-character string `"   0 bytes"`. -/
def human_size (v : PyVal) : Except PyErr String :=
  match v with
  | .int n => .ok (human_size_num n)
  | .ratv q => .ok (human_size_num q.floor)
  | .str s =>
    match pyIntOfString s with
    | some n => .ok (human_size_num n)
    | Option.none =>
      .error (.valueError ("invalid literal for int() with base 10: " ++ "\x27" ++ s ++ "\x27"))
  | .none =>
    .error (.typeError "unorderable types: NoneType and int")

/-- Modelled from the spec: `fmt.iso_datetime` (module not among the
given sources).  Spec §4.1: an absolute-time rendering of fixed width;
modelled as a width-19 rendering of the integral timestamp, raising
`TypeError` on `None` and `ValueError` on a malformed string. -/
def iso_datetime (v : PyVal) : Except PyErr String :=
  match v with
  | .int n => .ok (pyRjust (toString n) 19)
  | .ratv q => .ok (pyRjust (toString q.floor) 19)
  | .str s =>
    match pyIntOfString s with
    | some n => .ok (pyRjust (toString n) 19)
    | Option.none => .error (.valueError ("invalid timestamp: " ++ s))
  | .none => .error (.typeError "unorderable types: NoneType and int")

/-- Modelled from the spec: `fmt.human_duration` (module not among the
given sources).  Spec §4.1: a duration rendering of fixed width; modelled
as a width-10 rendering of the integral second count on numeric input,
raising `TypeError` on `None`. -/
def human_duration (v : Rat) : String := pyRjust (toString v.floor) 10

/- ### The formatter catalog (formatting.py lines 40-114) -/

/-- Test for the `except (ValueError, TypeError)` clauses of the
formatter catalog (lines 44, 52, 60, 68). -/
def vtCatch : PyErr → Bool
  | .valueError _ => true
  | .typeError _ => true
  | _ => false

/-- Line 40: `fmt_sz` — format a byte sized value; `ValueError` and
`TypeError` degrade to `"N/A".rjust(len(fmt.human_size(0)))`. -/
def fmt_sz (v : PyVal) : Except PyErr PyVal :=
  match human_size v with
  | .ok s => .ok (.str s)
  | .error e =>
    if vtCatch e then
      match human_size (.int 0) with
      | .ok z => .ok (.str (pyRjust "N/A" z.length))
      | .error e2 => .error e2
    else .error e

/-- Line 48: `fmt_iso` — same degrade contract against `iso_datetime`. -/
def fmt_iso (v : PyVal) : Except PyErr PyVal :=
  match iso_datetime v with
  | .ok s => .ok (.str s)
  | .error e =>
    if vtCatch e then
      match iso_datetime (.int 0) with
      | .ok z => .ok (.str (pyRjust "N/A" z.length))
      | .error e2 => .error e2
    else .error e

/-- Line 56: `fmt_duration` — degrade contract against
`human_duration(float(duration), 0, 2, True)`. -/
def fmt_duration (v : PyVal) : Except PyErr PyVal :=
  match pyFloat v with
  | .ok q => .ok (.str (human_duration q))
  | .error e =>
    if vtCatch e then
      .ok (.str (pyRjust "N/A" (human_duration 0).length))
    else .error e

/-- Line 64: `fmt_delta` — degrade contract against
`human_duration(float(timestamp), precision=2, short=True)`. -/
def fmt_delta (v : PyVal) : Except PyErr PyVal :=
  match pyFloat v with
  | .ok q => .ok (.str (human_duration q))
  | .error e =>
    if vtCatch e then
      .ok (.str (pyRjust "N/A" (human_duration 0).length))
    else .error e

/-- Line 72: `fmt_pc` — `round(float(floatval) * 100.0, 2)`; note that
unlike the formatters above it catches nothing. -/
def fmt_pc (v : PyVal) : Except PyErr PyVal := do
  let q ← pyFloat v
  pure (.ratv (pyRound2 (q * 100)))

/-- Line 77: `fmt_strip` — `str(val).strip()`. -/
def fmt_strip (v : PyVal) : Except PyErr PyVal := .ok (.str (pyStrip (pyStr v)))

/-- Line 82: `fmt_subst(regex, subst)` takes two arguments and returns a
closure; invoked through a one-argument formatter chain it raises the
missing-argument `TypeError` shown here. -/
def fmt_subst (_ : PyVal) : Except PyErr PyVal :=
  .error (.typeError "fmt_subst() missing 1 required positional argument: subst")

/-- Line 87: `fmt_mtime` — `os.path.getmtime(val) if val else 0.0`; the
filesystem read on a truthy path is an external effect outside the model. -/
def fmt_mtime (v : PyVal) : Except PyErr PyVal :=
  if pyTruthy v then .error (.external "os.path.getmtime: filesystem access")
  else .ok (.ratv 0)

/-- Index of the last slash of a path (0 when there is none), following
`posixpath`: the head is `p[:i+1]` for the last separator index `i`. -/
def lastSlashSplit (p : List Char) : List Char × List Char :=
  match (p.reverse.takeWhile (fun c => c ≠ '/')) with
  | tail => ((p.take (p.length - tail.length)), tail.reverse)

/-- Line 92: `fmt_pathbase` — `os.path.basename(val or "")`
(`posixpath.basename`: everything after the last slash). -/
def fmt_pathbase (v : PyVal) : Except PyErr PyVal :=
  let s := if pyTruthy v then pyStr v else ""
  .ok (.str (String.mk (lastSlashSplit s.toList).2))

/-- Python `posixpath.splitext` on a basename-style suffix: split at the
last dot unless every character before it (within the final path
component) is a dot. -/
def splitExtChars (p : List Char) : List Char × List Char :=
  let (head, base) := lastSlashSplit p
  let extRev := base.reverse.takeWhile (fun c => c ≠ '.')
  if extRev.length = base.length then (p, [])
  else
    let stem := base.take (base.length - extRev.length - 1)
    if stem.all (fun c => c = '.') then (p, [])
    else (head ++ stem, '.' :: extRev.reverse)

/-- Line 97: `fmt_pathname` — stem of the base name. -/
def fmt_pathname (v : PyVal) : Except PyErr PyVal :=
  let s := if pyTruthy v then pyStr v else ""
  .ok (.str (String.mk (splitExtChars (lastSlashSplit s.toList).2).1))

/-- Line 102: `fmt_pathext` — extension including the dot. -/
def fmt_pathext (v : PyVal) : Except PyErr PyVal :=
  let s := if pyTruthy v then pyStr v else ""
  .ok (.str (String.mk (splitExtChars s.toList).2))

/-- Python `posixpath.dirname`: `p[:i+1]` for the last separator index,
with trailing slashes stripped unless the head is all slashes. -/
def fmt_pathdir (v : PyVal) : Except PyErr PyVal :=
  let s := if pyTruthy v then pyStr v else ""
  let head := (lastSlashSplit s.toList).1
  let head :=
    if head ≠ [] ∧ ¬ head.all (fun c => c = '/') then
      (head.reverse.dropWhile (fun c => c = '/')).reverse
    else head
  .ok (.str (String.mk head))

/-- Line 112: `fmt_json` — JSON serialization (model of `json.dumps` on
the modelled value kinds). -/
def fmt_json (v : PyVal) : Except PyErr PyVal :=
  match v with
  | .none => .ok (.str "null")
  | .int n => .ok (.str (toString n))
  | .ratv q => .ok (.str (toString q.num ++ "/" ++ toString q.den))
  | .str s => .ok (.str ("\"" ++ s ++ "\""))

/-- The names of the `fmt_*` functions in module scope (`globals()`),
with the prefix removed, in source order (lines 40-114). -/
def catalog_names : List String :=
  ["sz", "iso", "duration", "delta", "pc", "strip", "subst", "mtime",
   "pathbase", "pathname", "pathext", "pathdir", "json"]

/-- The formatter catalog: `globals()["fmt_" + name]`, keyed here by the
short name. -/
def catalog : String → Option PyFormatter
  | "sz" => some fmt_sz
  | "iso" => some fmt_iso
  | "duration" => some fmt_duration
  | "delta" => some fmt_delta
  | "pc" => some fmt_pc
  | "strip" => some fmt_strip
  | "subst" => some fmt_subst
  | "mtime" => some fmt_mtime
  | "pathbase" => some fmt_pathbase
  | "pathname" => some fmt_pathname
  | "pathext" => some fmt_pathext
  | "pathdir" => some fmt_pathdir
  | "json" => some fmt_json
  | _ => Option.none

/- ### Field registry (external collaborator, modelled from the spec) -/

/-- A field definition: only the intrinsic-formatter component is
consulted by the embedded code (`field._formatter`). -/
structure FieldDef where
  formatter : Option PyFormatter

/-- A field registry: `engine.FieldDefinition.FIELDS`, queried by name. -/
abbrev FieldRegistry := String → Option FieldDef

/-- Modelled from the spec: the registry `engine.FieldDefinition.FIELDS`
(module `pyrosimple/torrent/engine.py` is not among the given sources).
Spec section 3 and section 8: it contains at least the field `size`,
whose intrinsic formatter is the size formatter, and the plain field
`name`. -/
def modelFields : FieldRegistry
  | "size" => some ⟨some fmt_sz⟩
  | "name" => some ⟨Option.none⟩
  | _ => Option.none

/-- Modelled from the spec: `engine.TorrentProxy.add_manifold_attribute`
(the dynamic-registration capability `try_register(name) -> bool` of spec
section 6); modelled as registering nothing, so that exactly the
statically registered fields resolve. -/
def modelManifold : String → Bool := fun _ => false

/- ### OutputMapping (formatting.py lines 120-217) -/

/-- Python `dict.setdefault(k, v)`: insert at the end when the key is
absent, otherwise leave the dict unchanged. -/
def pySetdefault (d : PyDict) (k : String) (v : PyVal) : PyDict :=
  if (d.lookup k).isSome then d else d ++ [(k, v)]

/-- Result of `OutputMapping.__init__` (lines 134-148): the dict stored
as `self.defaults`, plus whether that dict is the caller's own object
(`defaults or {}` keeps the caller's dict exactly when it is truthy,
i.e. non-empty, and `setdefault` then mutates it in place). -/
structure InitResult where
  self_defaults : PyDict
  caller_aliased : Bool
deriving DecidableEq

/-- Lines 134-148: `self.defaults = defaults or {}` followed by
`self.defaults.setdefault("pc", "%")`. -/
def OutputMapping.init (defaults : Option PyDict) : InitResult :=
  let aliased := match defaults with
    | some d => d ≠ []
    | Option.none => false
  let base := match defaults with
    | some d => if d = [] then [] else d
    | Option.none => []
  { self_defaults := pySetdefault base "pc" (.str "%"), caller_aliased := aliased }

/-- Lines 160-166: split a spec `key.f1.f2...` into the field part and
the list of formatter names (`key.split(".", 1)` followed by
`formats.split(".")`). -/
def splitKeyFormats (key : String) : String × List String :=
  if pyContainsChar key '.' then
    match pySplitDots key with
    | [] => (key, [])
    | k :: rest => (k, rest)
  else (key, [])

/-- Lines 168-181: fold the named formatters into one composed function;
`formatter = (lambda val: f(k(val))) if formatter else fmtfunc`, raising
`UserError` on a name missing from the catalog. -/
def buildFormatterLoop (g : String → Option PyFormatter) (key : String) :
    List String → Option PyFormatter → Except PyErr (Option PyFormatter)
  | [], acc => .ok acc
  | f :: rest, acc =>
    match g f with
    | Option.none =>
      .error (.userError ("Unknown formatting spec " ++ "\x27" ++ f ++ "\x27" ++
        " for " ++ "\x27" ++ key ++ "\x27"))
    | some fn =>
      buildFormatterLoop g key rest
        (some (match acc with
          | some k => fun v => k v >>= fn
          | Option.none => fn))

/-- Lines 157-198 of `OutputMapping.__getitem__`: parse the spec, build
the explicit chain, validate the field name (defaults and dynamic
registration as fallbacks), and prepend the intrinsic field formatter
unless `raw` was given.  Returns the bare key and the composed chain. -/
def composedFormatter (g : String → Option PyFormatter) (reg : FieldRegistry)
    (man : String → Bool) (defaults : PyDict) (key0 : String) :
    Except PyErr (String × Option PyFormatter) := do
  let (key, formats0) := splitKeyFormats key0
  let have_raw := formats0.head? = some "raw"
  let formats := if have_raw then formats0.drop 1 else formats0
  let formatter ← buildFormatterLoop g key formats Option.none
  match reg key with
  | Option.none =>
    if (defaults.lookup key).isNone ∧ ¬ man key then
      .error (.userError ("Unknown field " ++ "\x27" ++ key ++ "\x27"))
    else .ok (key, formatter)
  | some field =>
    match field.formatter with
    | some intr =>
      if ¬ have_raw then
        .ok (key, some (match formatter with
          | some f => fun v => intr v >>= f
          | Option.none => intr))
      else .ok (key, formatter)
    | Option.none => .ok (key, formatter)

/-- Python `getattr` on a modelled item. -/
def pyGetattr (item : PyItem) (name : String) : Except PyErr PyVal :=
  match item name with
  | some v => .ok v
  | Option.none => .error (.attributeError name)

/-- Lines 150-217: `OutputMapping.__getitem__`.  With no backing object
the upper-cased key (or `%` for `pc`) is returned; otherwise the value is
read off the item (falling back to the defaults), the composed formatter
chain is applied, and the five catchable exception kinds raised by it are
re-raised as a single `LoggableError` naming the key and raw value. -/
def OutputMapping.getitem (g : String → Option PyFormatter) (reg : FieldRegistry)
    (man : String → Bool) (obj : Option PyItem) (defaults : PyDict)
    (key0 : String) : Except PyErr PyVal := do
  let (key, formatter) ← composedFormatter g reg man defaults key0
  match obj with
  | Option.none => .ok (.str (if key = "pc" then "%" else pyUpper key))
  | some item =>
    let val ← (match item key with
      | some v => .ok v
      | Option.none =>
        match defaults.lookup key with
        | some v => .ok v
        | Option.none => .error (.attributeError ("no attribute " ++ key)))
    match formatter with
    | Option.none => .ok val
    | some f =>
      match f val with
      | .ok r => .ok r
      | .error e =>
        if e.catchable then
          .error (.loggableError ("While formatting " ++ key ++ "=" ++
            pyRepr val ++ ": " ++ e.text))
        else .error e

/- ### validate_field_list / validate_sort_fields (lines 350-436) -/

/-- Lines 377-381: validate each chained formatter name against the
catalog (the list `formats` of `fmt_*` names), allowing `raw`. -/
def checkFmtSpecs (fullname : String) : List String → Except PyErr Unit
  | [] => .ok ()
  | s :: rest =>
    if (catalog s).isSome ∨ s = "raw" then checkFmtSpecs fullname rest
    else
      .error (.userError ("Unknown format specification " ++ "\x27" ++ s ++
        "\x27" ++ " in " ++ "\x27" ++ fullname ++ "\x27"))

/-- Lines 373-387: the per-name body of the validation loop. -/
def checkFieldName (reg : FieldRegistry) (man : String → Bool)
    (allow : Bool) (name : String) : Except PyErr Unit := do
  let name ←
    if allow ∧ pyContainsChar name '.' then
      match pySplitDots name with
      | [] => pure name
      | base :: specs => do
        checkFmtSpecs name specs
        pure base
    else pure name
  if (reg name).isNone ∧ ¬ man name then
    .error (.userError ("Unknown field name " ++ "\x27" ++ name ++ "\x27"))
  else .ok ()

/-- The validation loop over all split names. -/
def checkFieldNames (reg : FieldRegistry) (man : String → Bool)
    (allow : Bool) : List String → Except PyErr Unit
  | [] => .ok ()
  | n :: rest => do
    checkFieldName reg man allow n
    checkFieldNames reg man allow rest

/-- Lines 350-389: `validate_field_list`.  The comma/whitespace split and
the `name_filter` rewriting are applied to the local `split_fields` list,
which is only checked; line 389 returns the original `fields` argument. -/
def validate_field_list (reg : FieldRegistry) (man : String → Bool)
    (fields : String) (allow_fmt_specs : Bool)
    (name_filter : Option (String → String)) : Except PyErr String := do
  let split_fields := (pySplitWs (pyReplaceChar fields ',' ' ')).map pyStrip
  let split_fields := match name_filter with
    | some f => split_fields.map f
    | Option.none => split_fields
  checkFieldNames reg man allow_fmt_specs split_fields
  pure fields

/-- Line 400: `sort_order_filter` without its side effect on the
`descending` set (the set is recomputed in `validate_sort_fields`). -/
def sort_order_filter (name : String) : String :=
  if pyStarts name "-" then pyDropOne name else name

/-- Result of `validate_sort_fields`: either
`operator.attrgetter(*tuple(sort_fields))` or the complex `Key` class,
each closing over the value returned by `validate_field_list` — which is
the original unsplit string, so `tuple(...)` and the `Key` loop iterate
over its characters. -/
inductive SortKeyResult where
  | attrGetter (fields : List String)
  | keyCmp (sort_fields : String) (descending : List String)
deriving DecidableEq

/-- Lines 392-436: `validate_sort_fields`.  The `descending` set is the
set of names the filter stripped a leading dash from; it is represented
here as the list of stripped names in split order (membership is all the
`Key` comparator uses). -/
def validate_sort_fields (reg : FieldRegistry) (man : String → Bool)
    (sort_fields0 : String) : Except PyErr SortKeyResult := do
  let split := (pySplitWs (pyReplaceChar sort_fields0 ',' ' ')).map pyStrip
  let descending := (split.filter (fun n => pyStarts n "-")).map pyDropOne
  let sort_fields ← validate_field_list reg man sort_fields0 false (some sort_order_filter)
  if descending = [] then
    pure (.attrGetter (sort_fields.toList.map (fun c => String.mk [c])))
  else
    pure (.keyCmp sort_fields descending)

/-- Python `==` on the modelled values (numeric kinds compare by value). -/
def pyEqV : PyVal → PyVal → Bool
  | .int a, .int b => a = b
  | .int a, .ratv q => (a : Rat) = q
  | .ratv q, .int b => q = (b : Rat)
  | .ratv a, .ratv b => a = b
  | .str a, .str b => a = b
  | .none, .none => true
  | _, _ => false

/-- Lexicographic character-list comparison (Python `str < str`). -/
def charListLt : List Char → List Char → Bool
  | [], [] => false
  | [], _ :: _ => true
  | _ :: _, [] => false
  | a :: as, b :: bs => if a = b then charListLt as bs else decide (a < b)

/-- Python `<` on the modelled values; unsupported cross-type comparison
raises `TypeError`. -/
def pyLtV : PyVal → PyVal → Except PyErr Bool
  | .int a, .int b => .ok (decide (a < b))
  | .int a, .ratv q => .ok (decide ((a : Rat) < q))
  | .ratv q, .int b => .ok (decide (q < (b : Rat)))
  | .ratv a, .ratv b => .ok (decide (a < b))
  | .str a, .str b => .ok (charListLt a.toList b.toList)
  | _, _ => .error (.typeError "< not supported between these instances")

/-- Lines 429-434: the body of `Key.__lt__`, walking a list of field
names. -/
def keyLtGo (descending : List String) (a b : PyItem) :
    List String → Except PyErr Bool
  | [] => .ok false
  | f :: rest => do
    let lhs ← pyGetattr a f
    let rhs ← pyGetattr b f
    if pyEqV lhs rhs then keyLtGo descending a b rest
    else if descending.contains f then pyLtV rhs lhs
    else pyLtV lhs rhs

/-- Lines 427-434: `Key.__lt__`.  The captured `sort_fields` is the
string returned by `validate_field_list`, so `for field in sort_fields`
iterates its characters, each a one-character field name. -/
def keyLt (sort_fields : String) (descending : List String)
    (a b : PyItem) : Except PyErr Bool :=
  keyLtGo descending a b (sort_fields.toList.map (fun c => String.mk [c]))

/-- Decidable equality for `Except` results (needed to settle concrete
evaluations of the embedded fallible code by `decide`). -/
instance {ε α : Type} [DecidableEq ε] [DecidableEq α] : DecidableEq (Except ε α)
  | .error e, .error f =>
    decidable_of_iff (e = f) ⟨fun h => by rw [h], fun h => by injection h⟩
  | .error _, .ok _ => isFalse (by intro c; exact Except.noConfusion c)
  | .ok _, .error _ => isFalse (by intro c; exact Except.noConfusion c)
  | .ok a, .ok b =>
    decidable_of_iff (a = b) ⟨fun h => by rw [h], fun h => by injection h⟩

/- ### move_torrent.py (job/move_torrent.py lines 19-69) -/

/-- Big-endian integer value of a byte string
(`int.from_bytes(digest, "big")`). -/
def fromBytesBig (bs : List Nat) : Nat := bs.foldl (fun a b => a * 256 + b) 0

/-- Python `str.encode()`: the UTF-8 bytes of a string. -/
def pyEncode (s : String) : List Nat := s.toUTF8.toList.map (fun b => b.toNat)

/-- Key list of a Python dict comprehension over `nodes`: duplicates keep
their first position (re-assignment does not move a dict key). -/
def pyDictKeys (ns : List String) : List String :=
  ns.foldl (fun acc n => if acc.contains n then acc else acc ++ [n]) []

/-- Stable ascending insertion by score (an element goes after all
existing elements of less-or-equal score), realising the stability of
Python `sorted(..., key=lambda item: item[1])`. -/
def sortedInsertByScore (x : String × Nat) :
    List (String × Nat) → List (String × Nat)
  | [] => [x]
  | y :: rest =>
    if y.2 ≤ x.2 then y :: sortedInsertByScore x rest else x :: y :: rest

/-- Stable sort by ascending score. -/
def sortByScore (l : List (String × Nat)) : List (String × Nat) :=
  l.foldl (fun acc x => sortedInsertByScore x acc) []

/-- Lines 19-25: `nodes_by_hash_weight` — weight every node by the
big-endian integer value of a digest of the item key concatenated with
the node name, and return the weights dict sorted by ascending weight.
The digest (`hashlib.sha256`, an external library primitive) is passed
as a parameter. -/
def nodes_by_hash_weight (digest : List Nat → List Nat)
    (meta_id : String) (nodes : List String) : List (String × Nat) :=
  let result := (pyDictKeys nodes).map
    (fun n => (n, fromBytesBig (digest (pyEncode meta_id ++ pyEncode n))))
  sortByScore result

/-- The `hosts` / `dry_run` entries of the mover job configuration. -/
structure MoverConfig where
  hosts : List String
  dry_run : Bool

/-- Remote daemon state: whether a host already holds an infohash
(`rproxy.d.hash(...)` succeeding, versus raising `rpc.HashNotFound`). -/
abbrev RemoteState := String → String → Bool

/-- The attributes of the item handled by `Mover.run_item`; the source
attribute `alias` is a reserved word here and is called `aliasName`. -/
structure MoverItem where
  hash : String
  aliasName : String

/-- Outcome of one pass of the mover loop. -/
inductive MoverOutcome where
  | moved (host : String)
  | wouldMove (host : String)
  | noHost
deriving DecidableEq

/-- Lines 54-69 for an item value `i`: walk hosts in ascending digest
weight, skip (after an info log) hosts that already hold the hash, and
move to — or, under `dry_run`, merely report — the first host that does
not, breaking out of the loop. -/
def run_item_go (holds : RemoteState) (cfg : MoverConfig) (i : MoverItem) :
    List (String × Nat) → MoverOutcome
  | [] => .noHost
  | (host, _) :: rest =>
    if holds host i.hash then run_item_go holds cfg i rest
    else if cfg.dry_run then .wouldMove host
    else .moved host

/-- Names bound in the module scope of `move_torrent.py`: its imports
(lines 5-16) and its three top-level definitions. -/
def move_torrent_globals : List String :=
  ["hashlib", "Path", "Dict", "List", "bencode", "pyrosimple", "config",
   "error", "base", "matching", "pymagic", "rpc",
   "nodes_by_hash_weight", "get_custom_fields", "Mover"]

/-- The names bound in the local scope of `Mover.run_item` — its two
parameters; the body assigns no name before line 54 is evaluated. -/
def run_item_locals : List String := ["self", "item"]

/-- Lines 52-69: `Mover.run_item(self, item)`.  Line 54 evaluates the
free name `i` (in `nodes_by_hash_weight(i.hash + i.alias, ...)`).  The
name `i` is bound neither locally, nor in the module globals, nor among
the Python builtins, so evaluating it raises `NameError` before any host
is consulted; were the name bound to the item, the loop `run_item_go`
would run on `nodes_by_hash_weight` of `hash + alias`. -/
def Mover.run_item (digest : List Nat → List Nat) (holds : RemoteState)
    (cfg : MoverConfig) (item : MoverItem) : Except PyErr MoverOutcome :=
  if run_item_locals.contains "i" ∨ move_torrent_globals.contains "i" then
    .ok (run_item_go holds cfg item
      (nodes_by_hash_weight digest (item.hash ++ item.aliasName) cfg.hosts))
  else .error (.nameError "name \x27i\x27 is not defined")

/- ### Concrete items used in settling the claims -/

/-- An item with `size` 5 and `name` "b". -/
def item_size5_name_b : PyItem := fun f =>
  if f = "size" then some (.int 5)
  else if f = "name" then some (.str "b") else Option.none

/-- An item with `size` 3 and `name` "z". -/
def item_size3_name_z : PyItem := fun f =>
  if f = "size" then some (.int 3)
  else if f = "name" then some (.str "z") else Option.none

/- ### Claim C4 -/

/-- Boolean success test on an `Except` result. -/
def exOk {ε α : Type} : Except ε α → Bool
  | .ok _ => true
  | .error _ => false

/- ### expand_template (formatting.py lines 242-294) -/

/-- Values occurring in the Engine A template namespace: formatter
functions from the catalog, the grouped helpers object `h`, the custom
helpers object `c`, or a caller-supplied value. -/
inductive NsVal where
  | catalogFn (short : String)
  | helpers
  | customHelpers
  | caller (v : PyVal)
deriving DecidableEq

/-- The Engine A namespace dict. -/
abbrev NsDict := List (String × NsVal)

/-- Python dict assignment `d[k] = v` on the assoc-list model: replace
the first binding of `k` in place, or append a new binding. -/
def dictSet : NsDict → String → NsVal → NsDict
  | [], k, v => [(k, v)]
  | (k2, v2) :: rest, k, v =>
    if k2 = k then (k, v) :: rest else (k2, v2) :: dictSet rest k v

/-- Python `base.update(upd)`: assign every binding of `upd` in order. -/
def dictUpdate (base upd : NsDict) : NsDict :=
  upd.foldl (fun acc kv => dictSet acc kv.1 kv.2) base

/-- Lines 252-266: the namespace assembly of `expand_template` —
`variables = dict(h=helpers, c=config.custom_template_helpers)`, then
`variables.update(formatters)` (every catalog formatter under its short
name), then `variables.update(namespace)` (the caller namespace). -/
def expand_template_vars (ns : List (String × PyVal)) : NsDict :=
  let formatters : NsDict := catalog_names.map (fun n => (n, NsVal.catalogFn n))
  let vars0 : NsDict := [("h", NsVal.helpers), ("c", NsVal.customHelpers)]
  let vars1 := dictUpdate vars0 formatters
  dictUpdate vars1 (ns.map (fun kv => (kv.1, NsVal.caller kv.2)))

/-- The exception classes caught by `expand_template` (line 272:
`except (AttributeError, ValueError, NameError, TypeError)`). -/
def tmplCatch : PyErr → Bool
  | .attributeError _ => true
  | .valueError _ => true
  | .nameError _ => true
  | .typeError _ => true
  | _ => false

/-- Lines 242-294: `expand_template`, parametric over the opaque
engine (`preparse` and the template's `substitute`, both external
collaborators per the spec): substitute is invoked on exactly the
assembled variables, and the four catchable error kinds are re-raised as
a single annotated `LoggableError` diagnostic. -/
def expand_template (pre : String → Except PyErr String)
    (subst : String → NsDict → Except PyErr String)
    (template : String) (ns : List (String × PyVal)) : Except PyErr String :=
  match (do
      let t ← pre template
      subst t (expand_template_vars ns) : Except PyErr String) with
  | .ok s => .ok s
  | .error e =>
    if tmplCatch e then
      .error (.loggableError (e.text ++ " in template: " ++ template))
    else .error e

/- ### Chain semantics (for claims C5, C6, C7) -/

/-- Sequential application of a list of formatters, first listed applied
first. -/
def chainApply (fs : List PyFormatter) (v : PyVal) : Except PyErr PyVal :=
  fs.foldlM (fun a f => f a) v

/-- Application of an optional composed formatter (absent means the raw
value passes through, as in lines 213). -/
def runOpt (F : Option PyFormatter) (v : PyVal) : Except PyErr PyVal :=
  match F with
  | some f => f v
  | Option.none => pure v

/-- Resolution of every chain name in the catalog. -/
def resolveChain (g : String → Option PyFormatter) :
    List String → Option (List PyFormatter)
  | [] => some []
  | f :: rest =>
    match g f with
    | some fn => (resolveChain g rest).map (fun fs => fn :: fs)
    | Option.none => Option.none

/-- The catch-and-rewrap of lines 212-217 applied to a chain result. -/
def wrapCaught (key : String) (v : PyVal) :
    Except PyErr PyVal → Except PyErr PyVal
  | .ok r => .ok r
  | .error e =>
    if e.catchable then
      .error (.loggableError ("While formatting " ++ key ++ "=" ++
        pyRepr v ++ ": " ++ e.text))
    else .error e

/- ### Claims C5, C6, C7 -/

/-- The closure built at lines 193-198 when a field has an intrinsic
formatter and `raw` was not given: the intrinsic step runs first, then
the explicit chain (when present). -/
def attachIntr (intr : PyFormatter) (F : Option PyFormatter) : PyFormatter :=
  match F with
  | some f => fun v => intr v >>= f
  | Option.none => intr

/-- The value-formatting tail of `__getitem__` (lines 212-217) for a
resolved value and an optional composed formatter. -/
def applyOptChain (key : String) (v : PyVal) (Fc : Option PyFormatter) :
    Except PyErr PyVal :=
  match Fc with
  | some f => wrapCaught key v (f v)
  | Option.none => .ok v

/- ### format_item and the header rewrite (formatting.py lines 297-347) -/

/-- Character class `[_.a-zA-Z0-9]` of the rewrite pattern at line 342. -/
def isNameChar (c : Char) : Bool :=
  c = '_' ∨ c = '.' ∨ ('a' ≤ c ∧ c ≤ 'z') ∨ ('A' ≤ c ∧ c ≤ 'Z') ∨ ('0' ≤ c ∧ c ≤ '9')

/-- Character class `[-#+0 ]` of the rewrite pattern. -/
def isFlagChar (c : Char) : Bool :=
  c = '-' ∨ c = '#' ∨ c = '+' ∨ c = '0' ∨ c = ' '

/-- Character class `[.0-9]` of the rewrite pattern. -/
def isDigitDot (c : Char) : Bool := c = '.' ∨ ('0' ≤ c ∧ c ≤ '9')

/-- Character class `[diouxXeEfFgG]` of the rewrite pattern: the
numeric / type-specific conversions the header rewrite replaces. -/
def isNumConv (c : Char) : Bool :=
  c = 'd' ∨ c = 'i' ∨ c = 'o' ∨ c = 'u' ∨ c = 'x' ∨ c = 'X' ∨
  c = 'e' ∨ c = 'E' ∨ c = 'f' ∨ c = 'F' ∨ c = 'g' ∨ c = 'G'

/-- One attempted match of the line 342 pattern
`(\([_.a-zA-Z0-9]+\)[-#+0 ]?[0-9]*?)[.0-9]*[diouxXeEfFgG]` at the head
of the input.  At any given position the pattern is deterministic: the
name run is maximal, the optional flag is consumed when its character
class matches, the lazy digit group is always empty (the following
`[.0-9]*` subsumes any digits), and the width/precision run is maximal.
On success, the result is capture group 1 and the remainder after the
conversion character. -/
def matchDirective (cs : List Char) : Option (List Char × List Char) :=
  match cs with
  | [] => Option.none
  | c :: rest =>
    if c = '(' then
      let nm := rest.takeWhile isNameChar
      match rest.dropWhile isNameChar with
      | c2 :: r2 =>
        if c2 = ')' ∧ nm ≠ [] then
          let fr : List Char × List Char :=
            match r2 with
            | f :: r3x => if isFlagChar f then ([f], r3x) else ([], r2)
            | [] => ([], r2)
          match (fr.2).dropWhile isDigitDot with
          | conv :: r5 =>
            if isNumConv conv then some ('(' :: nm ++ ')' :: fr.1, r5)
            else Option.none
          | [] => Option.none
        else Option.none
      | [] => Option.none
    else Option.none

/-- Fuel-indexed scanner realising `re.sub` with the line 342 pattern:
at each position try a match; on success emit group 1 followed by `s`
and continue after the match, otherwise copy one character.  The fuel is
always at least the input length at the call sites, so the zero-fuel
branch is never taken. -/
def subScanF : Nat → List Char → List Char
  | 0, cs => cs
  | fuel + 1, cs =>
    match cs with
    | [] => []
    | c :: rest =>
      match matchDirective (c :: rest) with
      | some (g1, r) => g1 ++ 's' :: subScanF fuel r
      | Option.none => c :: subScanF fuel rest

/-- The header rewrite of lines 340-345 on a character list. -/
def subScan (cs : List Char) : List Char := subScanF cs.length cs

/-- Lines 340-345: rewrite every numeric conversion directive of an
interpolation format string into a string conversion (`m.group(1)+"s"`),
applied only in header mode. -/
def headerRewrite (s : String) : String := String.mk (subScan s.toList)

/-- The conversion-flag class of Python %-interpolation (`#0- +`). -/
def isPyFlag (c : Char) : Bool :=
  c = '#' ∨ c = '0' ∨ c = '-' ∨ c = ' ' ∨ c = '+'

/-- Numeric value of a run of decimal digits. -/
def natOfDigits (ds : List Char) : Nat :=
  ds.foldl (fun a c => a * 10 + (c.toNat - 48)) 0

/-- Python `str.ljust(n)`. -/
def pyLjust (s : String) (n : Nat) : String :=
  if s.length ≥ n then s else s ++ String.mk (List.replicate (n - s.length) ' ')

/-- Width/justification step of a `%` conversion on an already rendered
string (the `-` flag left-justifies, otherwise right-justify). -/
def pyAdjustStr (flags width : List Char) (s : String) : String :=
  let w := natOfDigits width
  if flags.contains '-' then pyLjust s w else pyRjust s w

/-- Truncation of a rational toward zero (Python `int()` of a float). -/
def ratTrunc (q : Rat) : Int := if 0 ≤ q then q.floor else - ((- q).floor)

/-- Sign/zero-padding-free integer rendering with `+`/space flags. -/
def intWithSign (flags : List Char) (n : Int) : String :=
  if 0 ≤ n ∧ flags.contains '+' then "+" ++ toString n
  else if 0 ≤ n ∧ flags.contains ' ' then " " ++ toString n
  else toString n

/-- Base-`b` rendering of an integer (for the `o`/`x`/`X` conversions),
lowercase digits. -/
def intBaseStr (b : Nat) (n : Int) : String :=
  if n < 0 then "-" ++ String.mk (Nat.toDigits b n.natAbs)
  else String.mk (Nat.toDigits b n.natAbs)

/-- Fixed-point rendering of a rational with `p` fractional digits
(used for the float conversions; the exact-rational model stands in for
binary floats, on which no claim depends). -/
def ratFixed (q : Rat) (p : Nat) : String :=
  let sgn := if q < 0 then "-" else ""
  let aq := if q < 0 then -q else q
  let n := ratRoundHalfEven (aq * ((10 : Rat) ^ p))
  let ip := n / (10 : Int) ^ p
  let fp := n % (10 : Int) ^ p
  if p = 0 then sgn ++ toString ip
  else sgn ++ toString ip ++ "." ++ pyRjust (toString fp) p

/-- One `%` conversion of CPython string interpolation on the modelled
values: `s`/`r` render text, `d`/`i`/`u` require a real number,
`o`/`x`/`X` require an integer, the float conversions require a real
number (rendered in the exact-rational model), `c` requires an integer
or a one-character string, and an unknown conversion character is a
`ValueError`. -/
def convertVal (conv : Char) (flags width : List Char)
    (prec : Option (List Char)) (v : PyVal) : Except PyErr String :=
  if conv = 's' ∨ conv = 'r' then
    let s := if conv = 's' then pyStr v else pyRepr v
    let s := match prec with
      | some ds => String.mk (s.toList.take (natOfDigits ds))
      | Option.none => s
    .ok (pyAdjustStr flags width s)
  else if conv = 'd' ∨ conv = 'i' ∨ conv = 'u' then
    match v with
    | .int n => .ok (pyAdjustStr flags width (intWithSign flags n))
    | .ratv q => .ok (pyAdjustStr flags width (intWithSign flags (ratTrunc q)))
    | .str _ => .error (.typeError "%d format: a real number is required, not str")
    | .none => .error (.typeError "%d format: a real number is required, not NoneType")
  else if conv = 'o' ∨ conv = 'x' ∨ conv = 'X' then
    match v with
    | .int n =>
      let b : Nat := if conv = 'o' then 8 else 16
      let s := intBaseStr b n
      let s := if conv = 'X' then pyUpper s else s
      .ok (pyAdjustStr flags width s)
    | _ => .error (.typeError "%x format: an integer is required")
  else if conv = 'f' ∨ conv = 'F' ∨ conv = 'e' ∨ conv = 'E' ∨ conv = 'g' ∨ conv = 'G' then
    match v with
    | .int n =>
      .ok (pyAdjustStr flags width (ratFixed (n : Rat) (match prec with
        | some ds => natOfDigits ds
        | Option.none => 6)))
    | .ratv q =>
      .ok (pyAdjustStr flags width (ratFixed q (match prec with
        | some ds => natOfDigits ds
        | Option.none => 6)))
    | .str _ => .error (.typeError "must be real number, not str")
    | .none => .error (.typeError "must be real number, not NoneType")
  else if conv = 'c' then
    match v with
    | .str s =>
      if s.length = 1 then .ok (pyAdjustStr flags width s)
      else .error (.typeError "%c requires int or char")
    | .int n => .ok (pyAdjustStr flags width (String.mk [Char.ofNat n.toNat]))
    | _ => .error (.typeError "%c requires int or char")
  else .error (.valueError ("unsupported format character " ++ String.mk [conv]))

/-- Precision parse of a `%` conversion: a dot followed by digits. -/
def parsePrec (l : List Char) : Option (List Char) × List Char :=
  match l with
  | c :: lx =>
    if c = '.' then (some (lx.takeWhile Char.isDigit), lx.dropWhile Char.isDigit)
    else (Option.none, l)
  | [] => (Option.none, l)

/-- Parse of one parenthesised `%(name)flags width prec conv` directive,
starting after the opening `%(`. -/
def parseDirective (l : List Char) :
    Except PyErr (String × List Char × List Char × Option (List Char) × Char × List Char) :=
  let nm := l.takeWhile (fun x => x ≠ ')')
  match l.dropWhile (fun x => x ≠ ')') with
  | [] => .error (.valueError "incomplete format key")
  | _ :: r4 =>
    let flags := r4.takeWhile isPyFlag
    let r5 := r4.dropWhile isPyFlag
    let width := r5.takeWhile Char.isDigit
    let r6 := r5.dropWhile Char.isDigit
    let pr := parsePrec r6
    match pr.2 with
    | [] => .error (.valueError "incomplete format")
    | conv :: r8 => .ok (String.mk nm, flags, width, pr.1, conv, r8)

/-- Fuel-indexed interpreter of CPython `%`-interpolation with a mapping
on the right-hand side, restricted to the parenthesised (mapping) form
the embedded code relies on; a directive without a parenthesised key
against a mapping is modelled as the mapping `TypeError`.  The fuel is
always at least the input length at the call sites. -/
def interpGoF (M : String → Except PyErr PyVal) :
    Nat → List Char → Except PyErr (List Char)
  | 0, _ => .ok []
  | fuel + 1, cs =>
    match cs with
    | [] => .ok []
    | c :: rest =>
      if c = '%' then
        match rest with
        | [] => .error (.valueError "incomplete format")
        | c2 :: rest2 =>
          if c2 = '%' then do
            let t ← interpGoF M fuel rest2
            .ok ('%' :: t)
          else if c2 = '(' then
            match parseDirective rest2 with
            | .error e => .error e
            | .ok (nm, flags, width, pr, conv, r8) => do
              let v ← M nm
              let sOut ← convertVal conv flags width pr v
              let t ← interpGoF M fuel r8
              .ok (sOut.toList ++ t)
          else .error (.typeError "format requires a mapping")
      else do
        let t ← interpGoF M fuel rest
        .ok (c :: t)

/-- `%`-interpolation on a character list. -/
def interpList (M : String → Except PyErr PyVal) (cs : List Char) :
    Except PyErr (List Char) := interpGoF M cs.length cs

/-- Python `format_spec % mapping` (the interpolation branch of
`format_item`). -/
def pyInterp (M : String → Except PyErr PyVal) (s : String) :
    Except PyErr String := (interpList M s.toList).map String.mk

/-- Lines 297-347: `format_item`.  Engine dispatch sniffs the literal
prefixes (a plain string carries no `__engine__` attribute, so only
sniffing applies); the two template engines are the opaque external
renderers the spec declares, passed as parameters.  The interpolation
branch rewrites numeric directives to string directives when `item` is
absent, and interpolates with an `OutputMapping` over the item and the
(pc-seeded) defaults as the key source. -/
def format_item (engineA engineB : String → Option PyItem → Except PyErr String)
    (reg : FieldRegistry) (man : String → Bool)
    (format_spec : String) (item : Option PyItem) (defaults : Option PyDict) :
    Except PyErr String :=
  if pyStarts format_spec "\x7b\x7b" then engineA format_spec item
  else if pyStarts format_spec "\x7b#" then engineB format_spec item
  else
    let spec := if item.isNone then headerRewrite format_spec else format_spec
    pyInterp
      (fun k => OutputMapping.getitem catalog reg man item
        (OutputMapping.init defaults).self_defaults k)
      spec

/- ### The well-formed directive model for claim C8 -/

/-- Name characters of the claim's format specs: Python identifier
characters (a subset of the pattern's name class, without the dot so the
name is not itself parsed as a formatter chain). -/
def isPyNameChar (c : Char) : Bool := c = '_' ∨ c.isAlpha ∨ c.isDigit

/-- A segment of an interpolation format string: a literal or one
`%(name)flag width prec conv` directive. -/
inductive FmtSeg where
  | lit (s : String)
  | dir (name : String) (flag : Option Char) (width : String)
      (prec : String) (conv : Char)

/-- Characters of an optional flag. -/
def flagChars : Option Char → List Char
  | some f => [f]
  | Option.none => []

/-- The character rendering of a segment. -/
def FmtSeg.chars : FmtSeg → List Char
  | .lit s => s.toList
  | .dir name flag width prec conv =>
    '%' :: '(' :: (name.toList ++ ')' ::
      (flagChars flag ++ (width.toList ++ (prec.toList ++ [conv]))))

/-- The character rendering of a segment list. -/
def fmtChars (l : List FmtSeg) : List Char :=
  l.foldr (fun sg acc => sg.chars ++ acc) []

/-- Well-formedness of a segment for the claim: literals carry no
percent sign, parenthesis or brace; directives have a Python-identifier
name, a legal optional flag, digit width (not starting with `0` when no
flag is present, so the rewrite keeps the group-1 text unchanged), an
optional dot-digits precision, and a numeric conversion. -/
def SegWf : FmtSeg → Prop
  | .lit s => ∀ c ∈ s.toList, c ≠ '%' ∧ c ≠ '(' ∧ c ≠ '\x7b'
  | .dir name flag width prec conv =>
    name.toList ≠ [] ∧ (∀ c ∈ name.toList, isPyNameChar c = true) ∧
    (∀ f, flag = some f → isFlagChar f = true) ∧
    (∀ c ∈ width.toList, Char.isDigit c = true) ∧
    (flag = Option.none → width.toList.head? ≠ some '0') ∧
    (prec = "" ∨ (prec.toList.head? = some '.' ∧
      ∀ c ∈ prec.toList.drop 1, Char.isDigit c = true)) ∧
    isNumConv conv = true

instance : DecidablePred SegWf := fun sg => by
  cases sg <;> (unfold SegWf; infer_instance)

/-- Resolvability of a directive name against the registry (or the
reserved key `pc`, always present in the seeded defaults). -/
def DirOk (reg : FieldRegistry) : FmtSeg → Prop
  | .lit _ => True
  | .dir name _ _ _ _ => (reg name).isSome = true ∨ name = "pc"

instance (reg : FieldRegistry) : DecidablePred (DirOk reg) := fun sg => by
  cases sg <;> (unfold DirOk; infer_instance)

/-- The header label of a segment: literals verbatim, directives as the
field label (`%` for `pc`, the upper-cased name otherwise). -/
def segLabel : FmtSeg → String
  | .lit s => s
  | .dir name _ _ _ _ => if name = "pc" then "%" else pyUpper name

/-- The header rendering of a whole format, as characters: every
directive replaced by its field label. -/
def headerChars (l : List FmtSeg) : List Char :=
  l.foldr (fun sg acc => (segLabel sg).toList ++ acc) []

/-- The header rendering of a whole format: every directive replaced by
its field label. -/
def headerRender (l : List FmtSeg) : String := String.mk (headerChars l)

/-- The effect of the header rewrite on one segment: a numeric directive
keeps its name and flag but loses width and precision and becomes a
string conversion; a literal is untouched. -/
def segMap : FmtSeg → FmtSeg
  | .lit s => .lit s
  | .dir name flag _ _ _ => .dir name flag "" "" 's'

/-- The concrete format of the claim C8 witness: `x %(size)5d`. -/
def c8segs : List FmtSeg := [.lit "x ", .dir "size" Option.none "5" "" 'd']

/- ### Theorems settling the claims, with their supporting lemmas -/

/- ### Claim C1 -/

/-- Claim C1: the spec says the comparator produced by
`validate_sort_fields("-size name")` orders the size-5 item before the
size-3 item.  In the code, `validate_field_list` returns its original
unsplit argument, so the `Key` comparator closes over the string
`"-size name"` and its field walk iterates that string character by
character; on the two items of the claim the very first "field" is the
one-character name `-`, and the comparison raises `AttributeError`
instead of reporting the size-5 item smaller. -/
theorem c1_sort_key_walks_characters :
    validate_sort_fields modelFields modelManifold "-size name" =
      .ok (.keyCmp "-size name" ["size"]) ∧
    keyLt "-size name" ["size"] item_size5_name_b item_size3_name_z =
      .error (.attributeError "-") := by
  exact ⟨by decide, by decide⟩

/- ### Claim C2 -/

/-- Helper: an `Except` sequencing that ends in `pure x` can only
succeed with `x`. -/
theorem exceptSeqOk {ε α β : Type} (e : Except ε α) (x r : β)
    (h : (e >>= fun _ => pure x) = Except.ok r) : r = x := by
  cases e with
  | error err => simp [Bind.bind, Except.bind] at h
  | ok a =>
    simp [Bind.bind, Except.bind, pure, Except.pure] at h
    exact h.symm

/-- Claim C2 (amended form): `validate_field_list` returns its original
field-list argument entirely unchanged whenever validation succeeds; the
`name_filter` rewriting is applied only to the locally split name list
used for validation and never reaches the returned value. -/
theorem c2_returns_input_unchanged (reg : FieldRegistry) (man : String → Bool)
    (fields : String) (afs : Bool) (nf : Option (String → String)) (r : String)
    (h : validate_field_list reg man fields afs nf = .ok r) : r = fields := by
  unfold validate_field_list at h
  exact exceptSeqOk _ _ _ h

/-- Claim C2 witness: the theorem applied at a concrete validating
input. -/
theorem c2_returns_input_unchanged_witness : ("size name" : String) = "size name" :=
  c2_returns_input_unchanged modelFields modelManifold "size name" false
    Option.none "size name" (by decide)

/-- Claim C2 counterexample: with the dash-stripping name filter of the
sort path, `validate_field_list "-size"` validates the rewritten name
`size` yet returns the original `"-size"` — the claim's "unchanged apart
from the name_filter's rewriting" fails, because no rewriting at all
appears in the result. -/
theorem c2_no_rewriting_in_result :
    validate_field_list modelFields modelManifold "-size" false
      (some sort_order_filter) = .ok "-size" ∧
    sort_order_filter "-size" = "size" ∧
    ("-size" : String) ≠ "size" := by
  exact ⟨by decide, by decide, by decide⟩

/- ### Claim C3 -/

/-- Claim C3: the spec says `run_item` assigns the item to the
lowest-scoring host not already holding it.  The code's `run_item`
references the unbound name `i` instead of its parameter `item`, so
every invocation raises `NameError` before any host is scored or
consulted. -/
theorem c3_run_item_raises_name_error (digest : List Nat → List Nat)
    (holds : RemoteState) (cfg : MoverConfig) (item : MoverItem) :
    Mover.run_item digest holds cfg item =
      .error (.nameError "name \x27i\x27 is not defined") := rfl

/-- Claim C4 counterexample: `fmt_pc` is a catalog formatter (it is the
`pc` entry), and applied to the invalid input `None` it does not return
a placeholder — the `TypeError` raised by `float(None)` escapes
uncaught. -/
theorem c4_fmt_pc_lets_type_error_escape :
    catalog "pc" = some fmt_pc ∧
    fmt_pc PyVal.none = .error (.typeError
      "float() argument must be a string or a real number, not NoneType") :=
  ⟨rfl, by decide⟩

/-- Evaluation of the zero-byte rendering fixing the placeholder width. -/
theorem human_size_zero : human_size (.int 0) = .ok "   0 bytes" := by decide

/-- Claim C4 (amended form): the size, iso-time, duration and delta
formatters are total over the modelled values — every
`ValueError`/`TypeError` degrades to the `"N/A"` placeholder
right-justified to the width of that formatter's own zero-value success
rendering; in particular each formatter applied to `None` is that
placeholder, whose width equals the width of the zero-value output; the
percentage formatter, by contrast, catches nothing and fails on
`None`. -/
theorem c4_formatters_degrade_fmt_pc_does_not :
    (∀ v, exOk (fmt_sz v) = true) ∧
    (∀ v, exOk (fmt_iso v) = true) ∧
    (∀ v, exOk (fmt_duration v) = true) ∧
    (∀ v, exOk (fmt_delta v) = true) ∧
    (human_size (.int 0) = .ok "   0 bytes" ∧
      fmt_sz PyVal.none = .ok (.str (pyRjust "N/A" "   0 bytes".length)) ∧
      (pyRjust "N/A" "   0 bytes".length).length = "   0 bytes".length) ∧
    (iso_datetime (.int 0) = .ok "                  0" ∧
      fmt_iso PyVal.none =
        .ok (.str (pyRjust "N/A" "                  0".length)) ∧
      (pyRjust "N/A" "                  0".length).length =
        "                  0".length) ∧
    (human_duration 0 = "         0" ∧
      fmt_duration PyVal.none =
        .ok (.str (pyRjust "N/A" "         0".length)) ∧
      fmt_delta PyVal.none =
        .ok (.str (pyRjust "N/A" "         0".length)) ∧
      (pyRjust "N/A" "         0".length).length = "         0".length) ∧
    exOk (fmt_pc PyVal.none) = false := by
  refine ⟨?_, ?_, ?_, ?_, ⟨by decide, by decide, by decide⟩,
    ⟨by decide, by decide, by decide⟩,
    ⟨by decide, by decide, by decide, by decide⟩, by decide⟩
  · intro v
    cases v with
    | none => decide
    | int n => simp [fmt_sz, human_size, exOk]
    | ratv q => simp [fmt_sz, human_size, exOk]
    | str s =>
      cases h : pyIntOfString s with
      | some n => simp [fmt_sz, human_size, h, exOk]
      | none => simp [fmt_sz, human_size, h, vtCatch, human_size_zero, exOk]
  · intro v
    cases v with
    | none => decide
    | int n => simp [fmt_iso, iso_datetime, exOk]
    | ratv q => simp [fmt_iso, iso_datetime, exOk]
    | str s =>
      cases h : pyIntOfString s with
      | some n => simp [fmt_iso, iso_datetime, h, exOk]
      | none => simp [fmt_iso, iso_datetime, h, vtCatch, exOk]
  · intro v
    cases v with
    | none => decide
    | int n => simp [fmt_duration, pyFloat, exOk]
    | ratv q => simp [fmt_duration, pyFloat, exOk]
    | str s =>
      cases h : pyIntOfString s with
      | some n => simp [fmt_duration, pyFloat, h, exOk]
      | none => simp [fmt_duration, pyFloat, h, vtCatch, exOk]
  · intro v
    cases v with
    | none => decide
    | int n => simp [fmt_delta, pyFloat, exOk]
    | ratv q => simp [fmt_delta, pyFloat, exOk]
    | str s =>
      cases h : pyIntOfString s with
      | some n => simp [fmt_delta, pyFloat, h, exOk]
      | none => simp [fmt_delta, pyFloat, h, vtCatch, exOk]

/- ### Claim C10 -/

/-- Helper: looking up a key other than the appended one passes through
the append. -/
theorem lookup_append_single (d : PyDict) (k kp : String) (v : PyVal)
    (hk : k ≠ kp) : (d ++ [(kp, v)]).lookup k = d.lookup k := by
  induction d with
  | nil => simp [List.lookup, beq_false_of_ne hk]
  | cons hd tl ih =>
    cases hd with
    | mk k2 v2 =>
      by_cases h2 : k = k2
      · subst h2; simp [List.lookup]
      · simp [List.lookup, beq_false_of_ne h2, ih]

/-- Claim C10: constructing an `OutputMapping` with a caller-supplied
non-empty defaults dict keeps the caller's dict object (`defaults or {}`
evaluates to the caller's dict, which `setdefault` then mutates in
place); when `pc` is absent the mutation appends `pc ↦ "%"` and leaves
every other entry unchanged, and when `pc` is present the dict is left
exactly as it was. -/
theorem c10_init_mutates_caller_defaults (d : PyDict) (hne : d ≠ []) :
    (OutputMapping.init (some d)).caller_aliased = true ∧
    (d.lookup "pc" = Option.none →
      (OutputMapping.init (some d)).self_defaults = d ++ [("pc", .str "%")]) ∧
    (∀ k, k ≠ "pc" →
      ((OutputMapping.init (some d)).self_defaults).lookup k = d.lookup k) ∧
    (∀ v, d.lookup "pc" = some v →
      (OutputMapping.init (some d)).self_defaults = d) := by
  refine ⟨?_, ?_, ?_, ?_⟩
  · simp [OutputMapping.init, hne]
  · intro hpc
    simp [OutputMapping.init, hne, pySetdefault, hpc]
  · intro k hk
    by_cases hpc : (d.lookup "pc").isSome
    · simp [OutputMapping.init, hne, pySetdefault, hpc]
    · simp only [OutputMapping.init, hne, pySetdefault, hpc, if_neg, if_false]
      simp [hne, lookup_append_single d k "pc" (.str "%") hk]
  · intro v hv
    simp [OutputMapping.init, hne, pySetdefault, hv]

/-- Claim C10 witness: the theorem applied to the concrete dict
`{"x": 1}`. -/
theorem c10_init_mutates_caller_defaults_witness :
    (OutputMapping.init (some [("x", PyVal.int 1)])).caller_aliased = true ∧
    (OutputMapping.init (some [("x", PyVal.int 1)])).self_defaults =
      [("x", PyVal.int 1), ("pc", PyVal.str "%")] := by
  have h := c10_init_mutates_caller_defaults [("x", PyVal.int 1)] (by decide)
  exact ⟨h.1, h.2.1 (by decide)⟩

/- ### Claim C9 -/

/-- Helper: assigning a key makes its lookup return the new value. -/
theorem dictSet_lookup_self (b : NsDict) (k : String) (v : NsVal) :
    (dictSet b k v).lookup k = some v := by
  induction b with
  | nil => simp [dictSet, List.lookup]
  | cons hd tl ih =>
    cases hd with
    | mk k2 v2 =>
      by_cases h : k2 = k
      · subst h; simp [dictSet, List.lookup]
      · simp [dictSet, h, List.lookup, beq_false_of_ne (Ne.symm h), ih]

/-- Helper: assigning a different key leaves a lookup unchanged. -/
theorem dictSet_lookup_other (b : NsDict) (k k2 : String) (v : NsVal)
    (h : k ≠ k2) : (dictSet b k2 v).lookup k = b.lookup k := by
  induction b with
  | nil => simp [dictSet, List.lookup, beq_false_of_ne h]
  | cons hd tl ih =>
    cases hd with
    | mk k3 v3 =>
      by_cases h3 : k3 = k2
      · subst h3; simp [dictSet, List.lookup, beq_false_of_ne h]
      · by_cases hk3 : k = k3
        · subst hk3; simp [dictSet, h3, List.lookup]
        · simp [dictSet, h3, List.lookup, beq_false_of_ne hk3, ih]

/-- Helper: updating with a dict that does not bind `k` leaves the
lookup of `k` unchanged. -/
theorem dictUpdate_lookup_of_not_mem (upd : NsDict) (base : NsDict) (k : String)
    (h : k ∉ upd.map Prod.fst) : (dictUpdate base upd).lookup k = base.lookup k := by
  induction upd generalizing base with
  | nil => simp [dictUpdate]
  | cons hd tl ih =>
    cases hd with
    | mk k2 v2 =>
      have hk2 : k ≠ k2 := by
        intro hc; subst hc; exact h (by simp)
      have htl : k ∉ tl.map Prod.fst := by
        intro hc; exact h (by simp [hc])
      show (dictUpdate (dictSet base k2 v2) tl).lookup k = base.lookup k
      rw [ih _ htl, dictSet_lookup_other base k k2 v2 hk2]

/-- Helper: after updating with a duplicate-free dict binding `k ↦ v`,
the lookup of `k` returns `v`, whatever the base held. -/
theorem dictUpdate_lookup_of_mem (upd : NsDict) (base : NsDict) (k : String)
    (v : NsVal) (hnd : (upd.map Prod.fst).Nodup) (h : upd.lookup k = some v) :
    (dictUpdate base upd).lookup k = some v := by
  induction upd generalizing base with
  | nil => simp [List.lookup] at h
  | cons hd tl ih =>
    cases hd with
    | mk k2 v2 =>
      have hnd2 : k2 ∉ tl.map Prod.fst ∧ (tl.map Prod.fst).Nodup := by
        rw [List.map_cons] at hnd; exact List.nodup_cons.mp hnd
      by_cases hk : k = k2
      · subst hk
        have hv : v2 = v := by simpa [List.lookup] using h
        subst hv
        show (dictUpdate (dictSet base k v2) tl).lookup k = some v2
        rw [dictUpdate_lookup_of_not_mem tl _ k hnd2.1, dictSet_lookup_self]
      · have htl : tl.lookup k = some v := by
          simpa [List.lookup, beq_false_of_ne hk] using h
        exact ih (dictSet base k2 v2) hnd2.2 htl

/-- Helper: lookup in the caller namespace mapped into `NsVal.caller`. -/
theorem lookup_map_caller (ns : List (String × PyVal)) (k : String) (v : PyVal)
    (h : ns.lookup k = some v) :
    (ns.map (fun kv => (kv.1, NsVal.caller kv.2))).lookup k = some (NsVal.caller v) := by
  induction ns with
  | nil => simp [List.lookup] at h
  | cons hd tl ih =>
    cases hd with
    | mk k2 v2 =>
      by_cases hk : k = k2
      · subst hk
        have : v2 = v := by simpa [List.lookup] using h
        subst this
        simp [List.lookup]
      · have htl : tl.lookup k = some v := by
          simpa [List.lookup, beq_false_of_ne hk] using h
        simpa [List.lookup, beq_false_of_ne hk] using ih htl

/-- Claim C9: in the Engine A namespace assembled by `expand_template`,
a caller-supplied variable wins every name collision: whenever the
caller namespace binds `k` to `v`, the final variables dict binds `k` to
that caller value (and hence not to the catalog function of the same
name); moreover `expand_template` hands the substitution exactly this
dict. -/
theorem c9_caller_namespace_wins (ns : List (String × PyVal)) (k : String)
    (v : PyVal) (hnd : (ns.map Prod.fst).Nodup) (h : ns.lookup k = some v) :
    (expand_template_vars ns).lookup k = some (NsVal.caller v) ∧
    ∀ (subst : String → NsDict → Except PyErr String) (t : String),
      expand_template (fun s => .ok s) subst t ns =
        match subst t (expand_template_vars ns) with
        | .ok s => .ok s
        | .error e =>
          if tmplCatch e then
            .error (.loggableError (e.text ++ " in template: " ++ t))
          else .error e := by
  constructor
  · show (dictUpdate
        (dictUpdate [("h", NsVal.helpers), ("c", NsVal.customHelpers)]
          (catalog_names.map (fun n => (n, NsVal.catalogFn n))))
        (ns.map (fun kv => (kv.1, NsVal.caller kv.2)))).lookup k =
      some (NsVal.caller v)
    apply dictUpdate_lookup_of_mem
    · simpa [List.map_map, Function.comp] using hnd
    · exact lookup_map_caller ns k v h
  · intro subst t
    rfl

/-- Claim C9 witness: the caller variable `sz` shadows the catalog
formatter `sz`. -/
theorem c9_caller_namespace_wins_witness :
    (expand_template_vars [("sz", PyVal.int 7)]).lookup "sz" =
      some (NsVal.caller (PyVal.int 7)) :=
  (c9_caller_namespace_wins [("sz", PyVal.int 7)] "sz" (PyVal.int 7)
    (by decide) (by decide)).1

/-- Computation rule: successful bind. -/
theorem except_bind_ok {ε α β : Type} (a : α) (f : α → Except ε β) :
    ((Except.ok a : Except ε α) >>= f) = f a := rfl

/-- Computation rule: failing bind. -/
theorem except_bind_err {ε α β : Type} (e : ε) (f : α → Except ε β) :
    ((Except.error e : Except ε α) >>= f) = .error e := rfl

/-- Computation rule: bind after `pure`. -/
theorem except_pure_bind {ε α β : Type} (a : α) (f : α → Except ε β) :
    ((pure a : Except ε α) >>= f) = f a := rfl

/-- Computation rule: binding into `pure` is the identity. -/
theorem except_bind_pure {ε α : Type} (x : Except ε α) :
    (x >>= fun a => (pure a : Except ε α)) = x := by
  cases x <;> rfl

/-- Associativity of `Except` sequencing. -/
theorem except_bind_assoc {ε α β γ : Type} (x : Except ε α)
    (f : α → Except ε β) (g : β → Except ε γ) :
    ((x >>= f) >>= g) = x >>= fun a => f a >>= g := by
  cases x <;> rfl

/-- Congruence for `Except` sequencing with pointwise-equal
continuations. -/
theorem except_bind_congr {ε α β : Type} (x : Except ε α)
    {f g : α → Except ε β} (h : ∀ a, f a = g a) : (x >>= f) = (x >>= g) := by
  cases x with
  | error e => rfl
  | ok a => simpa using h a

/-- Semantics of the formatter-composition loop of lines 168-181: when
every chain name resolves, the loop succeeds and the composed closure
equals the accumulator followed by sequential application of the
resolved formatters, first listed first. -/
theorem buildFormatterLoop_sem (g : String → Option PyFormatter) (key : String)
    (formats : List String) (fs : List PyFormatter)
    (hres : resolveChain g formats = some fs) (acc : Option PyFormatter) :
    ∃ F, buildFormatterLoop g key formats acc = .ok F ∧
      ∀ v, runOpt F v = runOpt acc v >>= chainApply fs := by
  induction formats generalizing fs acc with
  | nil =>
    refine ⟨acc, rfl, ?_⟩
    intro v
    simp only [resolveChain, Option.some.injEq] at hres
    subst hres
    exact (except_bind_pure (runOpt acc v)).symm
  | cons f rest ih =>
    cases hg : g f with
    | none => simp [resolveChain, hg] at hres
    | some fn =>
      cases hrest : resolveChain g rest with
      | none => simp [resolveChain, hg, hrest] at hres
      | some fs2 =>
        have hfs : fs = fn :: fs2 := by
          simp [resolveChain, hg, hrest] at hres
          exact hres.symm
        subst hfs
        obtain ⟨F, hF, hsem⟩ := ih fs2 hrest
          (some (match acc with
            | some k => fun v => k v >>= fn
            | Option.none => fn))
        refine ⟨F, ?_, ?_⟩
        · simpa [buildFormatterLoop, hg] using hF
        · intro v
          rw [hsem v]
          cases acc with
          | none => rfl
          | some k =>
            show (k v >>= fn) >>= chainApply fs2 = k v >>= chainApply (fn :: fs2)
            rw [except_bind_assoc]
            rfl

/-- Helper: whenever the chain resolves and the field check passes, the
parsing half of `__getitem__` succeeds and exposes the bare key. -/
theorem composedFormatter_ok (g : String → Option PyFormatter)
    (reg : FieldRegistry) (man : String → Bool) (defaults : PyDict)
    (key0 key : String) (formats0 : List String) (F : Option PyFormatter)
    (hsplit : splitKeyFormats key0 = (key, formats0))
    (hchain : buildFormatterLoop g key
      (if formats0.head? = some "raw" then formats0.drop 1 else formats0)
      Option.none = .ok F)
    (hfield : (reg key).isSome = true ∨ (defaults.lookup key).isSome = true ∨
      man key = true) :
    ∃ F2, composedFormatter g reg man defaults key0 = .ok (key, F2) := by
  unfold composedFormatter
  rw [hsplit]
  dsimp only
  rw [hchain, except_bind_ok]
  cases hreg : reg key with
  | none =>
    dsimp only
    have hcond : ¬ ((defaults.lookup key).isNone = true ∧ ¬ man key = true) := by
      rcases hfield with hf | hf | hf
      · rw [hreg] at hf; simp at hf
      · intro hc
        rw [Option.isNone_iff_eq_none] at hc
        rw [Option.isSome_iff_exists] at hf
        obtain ⟨w, hw⟩ := hf
        rw [hw] at hc
        exact Option.noConfusion hc.1
      · intro hc; exact hc.2 hf
    rw [if_neg hcond]
    exact ⟨F, rfl⟩
  | some fd =>
    dsimp only
    cases hff : fd.formatter with
    | none => exact ⟨F, rfl⟩
    | some intr =>
      dsimp only
      by_cases hr : formats0.head? = some "raw"
      · rw [if_neg (fun hc => hc hr)]
        exact ⟨F, rfl⟩
      · rw [if_pos hr]
        exact ⟨_, rfl⟩

/-- Claim C5: in header mode (no backing item), resolving any spec whose
field part passes the field check returns the display label only — the
literal `%` for the reserved key `pc`, the upper-cased field name
otherwise — for every catalog assignment under which the formatter
suffix resolves; since the catalog functions are universally quantified,
no formatter in the chain (intrinsic or explicit) can influence the
result. -/
theorem c5_header_mode_returns_label (g : String → Option PyFormatter)
    (reg : FieldRegistry) (man : String → Bool) (defaults : PyDict)
    (key0 key : String) (formats0 : List String) (F : Option PyFormatter)
    (hsplit : splitKeyFormats key0 = (key, formats0))
    (hchain : buildFormatterLoop g key
      (if formats0.head? = some "raw" then formats0.drop 1 else formats0)
      Option.none = .ok F)
    (hfield : (reg key).isSome = true ∨ (defaults.lookup key).isSome = true ∨
      man key = true) :
    OutputMapping.getitem g reg man Option.none defaults key0 =
      .ok (.str (if key = "pc" then "%" else pyUpper key)) := by
  obtain ⟨F2, hC⟩ :=
    composedFormatter_ok g reg man defaults key0 key formats0 F hsplit hchain hfield
  unfold OutputMapping.getitem
  rw [hC, except_bind_ok]

/-- Claim C5 witness: the registered field `size` with the suffix
`.sz.strip` resolves to `SIZE`, and the reserved key `pc` resolves to
`%`, both in header mode. -/
theorem c5_header_mode_returns_label_witness :
    OutputMapping.getitem catalog modelFields modelManifold Option.none []
      "size.sz.strip" = .ok (.str "SIZE") ∧
    OutputMapping.getitem catalog modelFields modelManifold Option.none
      [("pc", PyVal.str "%")] "pc" = .ok (.str "%") := by
  constructor
  · have h := c5_header_mode_returns_label catalog modelFields modelManifold []
      "size.sz.strip" "size" ["sz", "strip"]
      (some (fun v => fmt_sz v >>= fmt_strip)) rfl rfl (Or.inl (by decide))
    rw [h]; decide
  · have h := c5_header_mode_returns_label catalog modelFields modelManifold
      [("pc", PyVal.str "%")] "pc" "pc" [] Option.none rfl rfl
      (Or.inr (Or.inl (by decide)))
    rw [h]; decide

/-- Helper: the value half of `__getitem__` over a backing item whose
attribute resolves: the composed chain result is wrapped by the line
212-217 catch. -/
theorem getitem_item_sem (g : String → Option PyFormatter)
    (reg : FieldRegistry) (man : String → Bool) (item : PyItem)
    (defaults : PyDict) (key0 key : String) (Fc : Option PyFormatter)
    (v : PyVal)
    (hC : composedFormatter g reg man defaults key0 = .ok (key, Fc))
    (hget : item key = some v) :
    OutputMapping.getitem g reg man (some item) defaults key0 =
      applyOptChain key v Fc := by
  unfold OutputMapping.getitem
  rw [hC, except_bind_ok]
  dsimp only
  rw [hget]
  dsimp only
  rw [except_bind_ok]
  cases Fc with
  | none => rfl
  | some f =>
    cases hfv : f v with
    | ok r => simp [applyOptChain, wrapCaught, hfv]
    | error e => simp [applyOptChain, wrapCaught, hfv]

/-- Helper: the parsing half of `__getitem__` for a registered field
with an intrinsic formatter: the intrinsic step is prepended exactly
when the chain does not start with `raw`. -/
theorem composedFormatter_field_intr (g : String → Option PyFormatter)
    (reg : FieldRegistry) (man : String → Bool) (defaults : PyDict)
    (key0 key : String) (formats0 formats : List String) (raw : Bool)
    (F : Option PyFormatter) (fd : FieldDef) (intr : PyFormatter)
    (hsplit : splitKeyFormats key0 = (key, formats0))
    (hforms : formats0 = if raw then "raw" :: formats else formats)
    (hnoraw : formats.head? ≠ some "raw")
    (hreg : reg key = some fd) (hintr : fd.formatter = some intr)
    (hchain : buildFormatterLoop g key formats Option.none = .ok F) :
    composedFormatter g reg man defaults key0 = .ok (key,
      if raw then F else some (attachIntr intr F)) := by
  unfold composedFormatter
  rw [hsplit]
  dsimp only
  cases raw with
  | true =>
    rw [if_pos rfl] at hforms
    subst hforms
    rw [if_pos (show ("raw" :: formats).head? = some "raw" from rfl)]
    rw [show ("raw" :: formats).drop 1 = formats from rfl]
    rw [hchain, except_bind_ok, hreg]
    dsimp only
    rw [hintr]
    dsimp only
    rw [if_neg (by simp), if_pos rfl]
  | false =>
    rw [if_neg (by decide)] at hforms
    subst hforms
    rw [if_neg hnoraw]
    rw [hchain, except_bind_ok, hreg]
    dsimp only
    rw [hintr]
    dsimp only
    rw [if_pos hnoraw, if_neg (by decide)]
    rfl

/-- Claim C6: for a spec `field.f1...fn` resolved against a backing
item, the intrinsic formatter (when present and `raw` not given) applies
first to the raw value and the explicit formatters `f1..fn` then apply
left-to-right exactly in written order; with a leading `raw` only the
intrinsic step is skipped while the explicit chain still applies. -/
theorem c6_intrinsic_first_then_chain_in_order (g : String → Option PyFormatter)
    (reg : FieldRegistry) (man : String → Bool) (item : PyItem)
    (defaults : PyDict) (key0 key : String) (formats0 formats : List String)
    (raw : Bool) (fs : List PyFormatter) (fd : FieldDef) (intr : PyFormatter)
    (v : PyVal)
    (hsplit : splitKeyFormats key0 = (key, formats0))
    (hforms : formats0 = if raw then "raw" :: formats else formats)
    (hnoraw : formats.head? ≠ some "raw")
    (hreg : reg key = some fd) (hintr : fd.formatter = some intr)
    (hres : resolveChain g formats = some fs)
    (hget : item key = some v) :
    OutputMapping.getitem g reg man (some item) defaults key0 =
      wrapCaught key v
        ((if raw then pure v else intr v) >>= chainApply fs) := by
  obtain ⟨F, hchain, hFsem⟩ :=
    buildFormatterLoop_sem g key formats fs hres Option.none
  have hpure : ∀ a, runOpt F a = chainApply fs a := by
    intro a
    rw [hFsem a, show runOpt Option.none a = (pure a : Except PyErr PyVal) from rfl,
      except_pure_bind]
  have hC := composedFormatter_field_intr g reg man defaults key0 key formats0
    formats raw F fd intr hsplit hforms hnoraw hreg hintr hchain
  cases raw with
  | true =>
    rw [if_pos rfl] at hC
    rw [getitem_item_sem g reg man item defaults key0 key F v hC hget]
    rw [if_pos rfl, except_pure_bind]
    cases F with
    | none =>
      have h0 : (pure v : Except PyErr PyVal) = chainApply fs v := hpure v
      rw [← h0]
      rfl
    | some f =>
      have h0 : f v = chainApply fs v := hpure v
      rw [← h0]
      rfl
  | false =>
    rw [if_neg (by decide)] at hC
    rw [if_neg (by decide)]
    rw [getitem_item_sem g reg man item defaults key0 key
      (some (attachIntr intr F)) v hC hget]
    cases F with
    | none =>
      have h0 : ∀ a, (pure a : Except PyErr PyVal) = chainApply fs a :=
        fun a => hpure a
      show wrapCaught key v (attachIntr intr Option.none v) =
        wrapCaught key v (intr v >>= chainApply fs)
      rw [show attachIntr intr Option.none v = intr v from rfl]
      cases hiv : intr v with
      | error e2 => rfl
      | ok a => rw [except_bind_ok, ← h0 a]; rfl
    | some f =>
      have h0 : ∀ a, f a = chainApply fs a := fun a => hpure a
      show wrapCaught key v (attachIntr intr (some f) v) =
        wrapCaught key v (intr v >>= chainApply fs)
      rw [show attachIntr intr (some f) v = intr v >>= f from rfl]
      rw [except_bind_congr (intr v) h0]

/-- Claim C6 witness: on the field `size` (intrinsic size formatter) and
an item with `size = 0`, the spec `size.sz` applies the intrinsic
formatter and then the explicit `sz` (which degrades the already
formatted string to the placeholder), while `size.raw.strip` skips the
intrinsic step but still strips. -/
theorem c6_intrinsic_first_then_chain_in_order_witness :
    OutputMapping.getitem catalog modelFields modelManifold
      (some (fun f => if f = "size" then some (.int 0) else Option.none)) []
      "size.sz" = .ok (.str "       N/A") ∧
    OutputMapping.getitem catalog modelFields modelManifold
      (some (fun f => if f = "size" then some (.str " x ") else Option.none)) []
      "size.raw.strip" = .ok (.str "x") := by
  constructor
  · have h := c6_intrinsic_first_then_chain_in_order catalog modelFields
      modelManifold (fun f => if f = "size" then some (.int 0) else Option.none)
      [] "size.sz" "size" ["sz"] ["sz"] false [fmt_sz] ⟨some fmt_sz⟩ fmt_sz
      (.int 0) rfl rfl (by decide) rfl rfl rfl rfl
    rw [h]; decide
  · have h := c6_intrinsic_first_then_chain_in_order catalog modelFields
      modelManifold (fun f => if f = "size" then some (.str " x ") else Option.none)
      [] "size.raw.strip" "size" ["raw", "strip"] ["strip"] true [fmt_strip]
      ⟨some fmt_sz⟩ fmt_sz (.str " x ") rfl rfl (by decide) rfl rfl rfl rfl
    rw [h]; decide

/-- Claim C7: when the composed formatter chain raises one of the five
catchable exception kinds on the resolved raw value, resolution raises
exactly the single aggregated `LoggableError` naming the failing field
and the offending raw value, and that aggregated error is not itself one
of the raw catchable kinds (the underlying exception never propagates). -/
theorem c7_chain_failure_wrapped (g : String → Option PyFormatter)
    (reg : FieldRegistry) (man : String → Bool) (item : PyItem)
    (defaults : PyDict) (key0 key : String) (F : PyFormatter) (v : PyVal)
    (e : PyErr)
    (hC : composedFormatter g reg man defaults key0 = .ok (key, some F))
    (hget : item key = some v)
    (hF : F v = .error e) (hcatch : e.catchable = true) :
    OutputMapping.getitem g reg man (some item) defaults key0 =
      .error (.loggableError ("While formatting " ++ key ++ "=" ++
        pyRepr v ++ ": " ++ e.text)) ∧
    PyErr.catchable (.loggableError ("While formatting " ++ key ++ "=" ++
      pyRepr v ++ ": " ++ e.text)) = false := by
  constructor
  · rw [getitem_item_sem g reg man item defaults key0 key (some F) v hC hget]
    show wrapCaught key v (F v) = _
    rw [hF]
    simp [wrapCaught, hcatch]
  · rfl

/-- Claim C7 witness: the spec `name.pc` over an item with
`name = "abc"`: `fmt_pc` raises `ValueError` from `float("abc")`, and
resolution reports the single aggregated error naming the field and the
raw value. -/
theorem c7_chain_failure_wrapped_witness :
    OutputMapping.getitem catalog modelFields modelManifold
      (some (fun f => if f = "name" then some (.str "abc") else Option.none)) []
      "name.pc" =
      .error (.loggableError
        "While formatting name=\x27abc\x27: could not convert string to float: \x27abc\x27") := by
  have h := c7_chain_failure_wrapped catalog modelFields modelManifold
    (fun f => if f = "name" then some (.str "abc") else Option.none) []
    "name.pc" "name" fmt_pc (.str "abc")
    (.valueError ("could not convert string to float: " ++ "\x27" ++ "abc" ++ "\x27"))
    rfl rfl (by decide) rfl
  rw [h.1]
  rfl

/- ### Scanner lemmas for the header rewrite -/

/-- Dropping a satisfying run never lengthens a list. -/
theorem lenDropWhileLe (p : Char → Bool) (l : List Char) :
    (l.dropWhile p).length ≤ l.length := by
  induction l with
  | nil => simp [List.dropWhile]
  | cons a l ih =>
    by_cases h : p a = true
    · simp [List.dropWhile, h]; omega
    · simp [List.dropWhile, h]

/-- A span over an all-satisfying block stops exactly at a failing (or
absent) head of the remainder. -/
theorem span_append_all (p : Char → Bool) (l r : List Char)
    (hl : ∀ c ∈ l, p c = true)
    (hr : ∀ c rs, r = c :: rs → p c = false) :
    (l ++ r).takeWhile p = l ∧ (l ++ r).dropWhile p = r := by
  induction l with
  | nil =>
    cases r with
    | nil => simp [List.takeWhile, List.dropWhile]
    | cons c rs =>
      have := hr c rs rfl
      simp [List.takeWhile, List.dropWhile, this]
  | cons a l ih =>
    have ha : p a = true := hl a (by simp)
    have hl' : ∀ c ∈ l, p c = true := fun c hc => hl c (by simp [hc])
    obtain ⟨h1, h2⟩ := ih hl'
    simp [List.takeWhile, List.dropWhile, ha, h1, h2]

/-- A successful pattern match strictly shortens the input. -/
theorem matchDirective_rest_lt (cs g1 r : List Char)
    (h : matchDirective cs = some (g1, r)) : r.length < cs.length := by
  cases cs with
  | nil => simp [matchDirective] at h
  | cons c rest =>
    unfold matchDirective at h
    dsimp only at h
    by_cases hc : c = '('
    · rw [if_pos hc] at h
      cases hd : rest.dropWhile isNameChar with
      | nil => rw [hd] at h; simp at h
      | cons c2 r2 =>
        rw [hd] at h
        dsimp only at h
        have hr2 : r2.length < rest.length := by
          have h1 : (c2 :: r2).length ≤ rest.length := by
            rw [← hd]; exact lenDropWhileLe _ _
          simp at h1; omega
        by_cases hc2 : c2 = ')' ∧ rest.takeWhile isNameChar ≠ []
        · rw [if_pos hc2] at h
          cases r2 with
          | nil =>
            dsimp only at h
            cases hdd : ([] : List Char).dropWhile isDigitDot with
            | nil => rw [hdd] at h; simp at h
            | cons conv r5 => simp [List.dropWhile] at hdd
          | cons f r3x =>
            dsimp only at h
            by_cases hf : isFlagChar f = true
            · rw [if_pos hf] at h
              dsimp only at h
              cases hdd : r3x.dropWhile isDigitDot with
              | nil => rw [hdd] at h; simp at h
              | cons conv r5 =>
                rw [hdd] at h
                dsimp only at h
                by_cases hn : isNumConv conv = true
                · rw [if_pos hn] at h
                  have h5 : (conv :: r5).length ≤ r3x.length := by
                    rw [← hdd]; exact lenDropWhileLe _ _
                  have hrr : r = r5 := by
                    injection h with h'
                    exact (congrArg Prod.snd h').symm
                  subst hrr
                  simp at h5 hr2 ⊢
                  omega
                · rw [if_neg hn] at h; simp at h
            · rw [if_neg hf] at h
              dsimp only at h
              cases hdd : (f :: r3x).dropWhile isDigitDot with
              | nil => rw [hdd] at h; simp at h
              | cons conv r5 =>
                rw [hdd] at h
                dsimp only at h
                by_cases hn : isNumConv conv = true
                · rw [if_pos hn] at h
                  have h5 : (conv :: r5).length ≤ (f :: r3x).length := by
                    rw [← hdd]; exact lenDropWhileLe _ _
                  have hrr : r = r5 := by
                    injection h with h'
                    exact (congrArg Prod.snd h').symm
                  subst hrr
                  simp at h5 hr2 ⊢
                  omega
                · rw [if_neg hn] at h; simp at h
        · rw [if_neg hc2] at h; simp at h
    · rw [if_neg hc] at h; simp at h

/-- The scanner result does not depend on the fuel, once the fuel covers
the input length. -/
theorem subScanF_irrel (f1 : Nat) : ∀ (f2 : Nat) (cs : List Char),
    cs.length ≤ f1 → cs.length ≤ f2 → subScanF f1 cs = subScanF f2 cs := by
  induction f1 with
  | zero =>
    intro f2 cs h1 _
    have hnil : cs = [] := by
      cases cs with
      | nil => rfl
      | cons a l => simp at h1
    subst hnil
    cases f2 <;> rfl
  | succ f1 ih =>
    intro f2 cs h1 h2
    cases cs with
    | nil => cases f2 <;> rfl
    | cons c rest =>
      cases f2 with
      | zero => simp at h2
      | succ f2 =>
        show subScanF (f1 + 1) (c :: rest) = subScanF (f2 + 1) (c :: rest)
        unfold subScanF
        dsimp only
        cases hm : matchDirective (c :: rest) with
        | none =>
          dsimp only
          have hrest : rest.length ≤ f1 := by simp at h1; omega
          have hrest2 : rest.length ≤ f2 := by simp at h2; omega
          rw [ih f2 rest hrest hrest2]
        | some pr =>
          obtain ⟨g1, r⟩ := pr
          have hlt := matchDirective_rest_lt _ _ _ hm
          dsimp only
          simp only [List.length_cons] at h1 h2 hlt
          rw [ih f2 r (by omega) (by omega)]

/-- Unfolding equation of the rewrite at a matching position. -/
theorem subScan_eq_match (c : Char) (rest g1 r : List Char)
    (h : matchDirective (c :: rest) = some (g1, r)) :
    subScan (c :: rest) = g1 ++ 's' :: subScan r := by
  show subScanF (rest.length + 1) (c :: rest) = _
  unfold subScanF
  dsimp only
  rw [h]
  dsimp only
  have hlt := matchDirective_rest_lt _ _ _ h
  simp only [List.length_cons] at hlt
  rw [subScanF_irrel rest.length r.length r (by omega) (le_refl _)]
  rfl

/-- Unfolding equation of the rewrite at a non-matching position. -/
theorem subScan_eq_no (c : Char) (rest : List Char)
    (h : matchDirective (c :: rest) = Option.none) :
    subScan (c :: rest) = c :: subScan rest := by
  show subScanF (rest.length + 1) (c :: rest) = _
  unfold subScanF
  dsimp only
  rw [h]
  dsimp only
  rfl

/-- The pattern can only match at an opening parenthesis. -/
theorem matchDirective_ne_paren (c : Char) (l : List Char) (h : c ≠ '(') :
    matchDirective (c :: l) = Option.none := by
  unfold matchDirective
  dsimp only
  rw [if_neg h]

/-- The rewrite copies a parenthesis-free block verbatim. -/
theorem subScan_copy (cs rest : List Char) (h : ∀ c ∈ cs, c ≠ '(') :
    subScan (cs ++ rest) = cs ++ subScan rest := by
  induction cs with
  | nil => simp [subScan]
  | cons c cs ih =>
    have hc := h c (by simp)
    have h' : ∀ x ∈ cs, x ≠ '(' := fun x hx => h x (by simp [hx])
    rw [List.cons_append, subScan_eq_no c _ (matchDirective_ne_paren c _ hc), ih h']
    rfl

/- ### Character class facts -/

/-- A character satisfying a predicate differs from any character
failing it. -/
theorem ne_of_pred {P : Char → Bool} {c k : Char} (h : P c = true)
    (hk : P k = false) : c ≠ k := by
  intro he
  rw [he, hk] at h
  exact Bool.noConfusion h

/-- Identifier characters lie in the pattern's name class. -/
theorem isNameChar_of_py {c : Char} (h : isPyNameChar c = true) :
    isNameChar c = true := by
  simp only [isPyNameChar, Char.isAlpha, Char.isUpper, Char.isLower,
    Char.isDigit, Bool.or_eq_true, Bool.and_eq_true, decide_eq_true_eq] at h
  simp only [isNameChar, Bool.or_eq_true, Bool.and_eq_true, decide_eq_true_eq]
  tauto

/-- The pattern's flag class is the interpolation flag class. -/
theorem pyflag_of_flag {c : Char} (h : isFlagChar c = true) :
    isPyFlag c = true := by
  simp only [isFlagChar, Bool.or_eq_true, decide_eq_true_eq] at h
  simp only [isPyFlag, Bool.or_eq_true, decide_eq_true_eq]
  tauto

/-- Digits lie in the width/precision class. -/
theorem digitDot_of_digit {c : Char} (h : Char.isDigit c = true) :
    isDigitDot c = true := by
  simp only [Char.isDigit, Bool.and_eq_true, decide_eq_true_eq] at h
  simp only [isDigitDot, Bool.or_eq_true, Bool.and_eq_true, decide_eq_true_eq]
  tauto

/-- A numeric conversion character is not a width/precision character. -/
theorem numConv_not_digitDot {c : Char} (h : isNumConv c = true) :
    isDigitDot c = false := by
  simp only [isNumConv, Bool.or_eq_true, decide_eq_true_eq] at h
  rcases h with h|h|h|h|h|h|h|h|h|h|h|h <;> subst h <;> decide

/-- A numeric conversion character is not a flag. -/
theorem numConv_not_flag {c : Char} (h : isNumConv c = true) :
    isFlagChar c = false := by
  simp only [isNumConv, Bool.or_eq_true, decide_eq_true_eq] at h
  rcases h with h|h|h|h|h|h|h|h|h|h|h|h <;> subst h <;> decide

/-- A non-zero digit is not a flag. -/
theorem digit_ne0_not_flag {c : Char} (hd : Char.isDigit c = true)
    (h0 : c ≠ '0') : isFlagChar c = false := by
  cases hfc : isFlagChar c with
  | false => rfl
  | true =>
    exfalso
    simp only [isFlagChar, Bool.or_eq_true, decide_eq_true_eq] at hfc
    rcases hfc with h|h|h|h|h <;> subst h
    · exact absurd hd (by decide)
    · exact absurd hd (by decide)
    · exact absurd hd (by decide)
    · exact h0 rfl
    · exact absurd hd (by decide)

/- ### The pattern match at a well-formed numeric directive -/

/-- The width/precision block of a well-formed directive is skipped as a
whole by the `[.0-9]*` span, which stops exactly at the conversion
character. -/
theorem dropWhile_digitDot_block (width prec : List Char) (conv : Char)
    (rest : List Char)
    (hwidth : ∀ c ∈ width, Char.isDigit c = true)
    (hprec : prec = [] ∨ ∃ ds, prec = '.' :: ds ∧ ∀ c ∈ ds, Char.isDigit c = true)
    (hconv : isNumConv conv = true) :
    List.dropWhile isDigitDot (width ++ (prec ++ conv :: rest)) = conv :: rest := by
  have hall : ∀ c ∈ width ++ prec, isDigitDot c = true := by
    intro c hc
    rcases List.mem_append.mp hc with hc | hc
    · exact digitDot_of_digit (hwidth c hc)
    · rcases hprec with hp | ⟨ds, hds, hdsall⟩
      · subst hp; simp at hc
      · subst hds
        rcases List.mem_cons.mp hc with hc | hc
        · subst hc; decide
        · exact digitDot_of_digit (hdsall c hc)
  obtain ⟨_, hdw2⟩ := span_append_all isDigitDot (width ++ prec) (conv :: rest)
    hall (fun c rs hcr => by
      injection hcr with h1 _
      rw [← h1]
      exact numConv_not_digitDot hconv)
  simpa [List.append_assoc] using hdw2

/-- At a well-formed numeric directive the line 342 pattern matches
exactly the directive, with capture group 1 spanning the parenthesised
name plus the optional flag. -/
theorem matchDirective_at_dir (name flagL width prec : List Char)
    (conv : Char) (rest : List Char)
    (hne : name ≠ [])
    (hnm : ∀ c ∈ name, isNameChar c = true ∧ c ≠ ')')
    (hflag : flagL = [] ∨ ∃ f, flagL = [f] ∧ isFlagChar f = true)
    (hwidth : ∀ c ∈ width, Char.isDigit c = true)
    (hwz : flagL = [] → width.head? ≠ some '0')
    (hprec : prec = [] ∨ ∃ ds, prec = '.' :: ds ∧ ∀ c ∈ ds, Char.isDigit c = true)
    (hconv : isNumConv conv = true) :
    matchDirective ('(' :: (name ++ ')' ::
        (flagL ++ (width ++ (prec ++ conv :: rest))))) =
      some ('(' :: name ++ ')' :: flagL, rest) := by
  have hdd := dropWhile_digitDot_block width prec conv rest hwidth hprec hconv
  unfold matchDirective
  dsimp only
  rw [if_pos rfl]
  obtain ⟨ht, hdw⟩ := span_append_all isNameChar name
    (')' :: (flagL ++ (width ++ (prec ++ conv :: rest))))
    (fun c hc => (hnm c hc).1)
    (fun c rs hcr => by injection hcr with h1 _; rw [← h1]; decide)
  rw [hdw]
  dsimp only
  rw [ht, if_pos ⟨rfl, hne⟩]
  rcases hflag with hfl | ⟨f, hfl, hf⟩
  · subst hfl
    simp only [List.nil_append]
    cases hwd : width with
    | cons w0 w' =>
      subst hwd
      simp only [List.cons_append]
      rw [if_neg (by
        rw [digit_ne0_not_flag (hwidth w0 (by simp))
          (fun h0 => (hwz rfl) (by rw [h0]; rfl))]
        simp)]
      rw [show w0 :: (w' ++ (prec ++ conv :: rest)) =
        (w0 :: w') ++ (prec ++ conv :: rest) from rfl, hdd]
      dsimp only
      rw [if_pos hconv]
    | nil =>
      subst hwd
      simp only [List.nil_append] at hdd ⊢
      rcases hprec with hp | ⟨ds, hds, _⟩
      · subst hp
        simp only [List.nil_append] at hdd ⊢
        rw [if_neg (by rw [numConv_not_flag hconv]; simp)]
        rw [hdd]
        dsimp only
        rw [if_pos hconv]
      · subst hds
        simp only [List.cons_append]
        rw [if_neg (by decide)]
        rw [show '.' :: (ds ++ conv :: rest) =
          ('.' :: ds) ++ conv :: rest from rfl, hdd]
        dsimp only
        rw [if_pos hconv]
  · subst hfl
    simp only [List.cons_append, List.nil_append]
    rw [if_pos hf]
    dsimp only
    rw [hdd]
    dsimp only
    rw [if_pos hconv]

/- ### The header rewrite on a whole well-formed format -/

/-- The rewrite maps every numeric directive of a well-formed format to
its string-conversion form and leaves the literals verbatim. -/
theorem subScan_segs (segs : List FmtSeg) (hwf : ∀ sg ∈ segs, SegWf sg) :
    subScan (fmtChars segs) = fmtChars (segs.map segMap) := by
  induction segs with
  | nil => rfl
  | cons sg rest ih =>
    have hsg := hwf sg (by simp)
    have hrest : ∀ x ∈ rest, SegWf x := fun x hx => hwf x (by simp [hx])
    cases sg with
    | lit s =>
      show subScan (s.toList ++ fmtChars rest) =
        s.toList ++ fmtChars (rest.map segMap)
      rw [subScan_copy _ _
        (fun c hc => ((hsg : SegWf (.lit s)) c hc).2.1), ih hrest]
    | dir name flag width prec conv =>
      obtain ⟨hne, hnm, hfl, hw, hwz, hprec, hcv⟩ :=
        (hsg : SegWf (.dir name flag width prec conv))
      have hshape : fmtChars (FmtSeg.dir name flag width prec conv :: rest) =
          '%' :: ('(' :: (name.toList ++ ')' :: (flagChars flag ++
            (width.toList ++ (prec.toList ++ conv :: fmtChars rest))))) := by
        show (FmtSeg.dir name flag width prec conv).chars ++ fmtChars rest = _
        simp [FmtSeg.chars, List.append_assoc]
      rw [hshape]
      rw [subScan_eq_no '%' _ (matchDirective_ne_paren _ _ (by decide))]
      have hnm' : ∀ c ∈ name.toList, isNameChar c = true ∧ c ≠ ')' :=
        fun c hc => ⟨isNameChar_of_py (hnm c hc), ne_of_pred (hnm c hc) (by decide)⟩
      have hflag' : flagChars flag = [] ∨
          ∃ f, flagChars flag = [f] ∧ isFlagChar f = true := by
        cases flag with
        | none => exact Or.inl rfl
        | some f => exact Or.inr ⟨f, rfl, hfl f rfl⟩
      have hwz' : flagChars flag = [] → width.toList.head? ≠ some '0' := by
        cases flag with
        | none => exact fun _ => hwz rfl
        | some f => intro hc; exact absurd hc (by simp [flagChars])
      have hprec' : prec.toList = [] ∨
          ∃ ds, prec.toList = '.' :: ds ∧ ∀ c ∈ ds, Char.isDigit c = true := by
        rcases hprec with hp | ⟨hhd, hds⟩
        · subst hp; exact Or.inl rfl
        · cases hpl : prec.toList with
          | nil => rw [hpl] at hhd; simp at hhd
          | cons a as =>
            rw [hpl] at hhd hds
            simp at hhd
            subst hhd
            exact Or.inr ⟨as, rfl, by simpa using hds⟩
      rw [subScan_eq_match '(' _ _ _
        (matchDirective_at_dir name.toList (flagChars flag) width.toList
          prec.toList conv (fmtChars rest) hne hnm' hflag' hw hwz' hprec' hcv)]
      rw [ih hrest]
      show _ = (FmtSeg.dir name flag "" "" 's').chars ++ fmtChars (rest.map segMap)
      simp [FmtSeg.chars, List.append_assoc]

/- ### Interpolation lemmas -/

/-- The remainder of a precision parse never grows. -/
theorem parsePrec_len (l : List Char) : (parsePrec l).2.length ≤ l.length := by
  cases l with
  | nil => simp [parsePrec]
  | cons c lx =>
    by_cases hc : c = '.'
    · simp only [parsePrec, if_pos hc]
      have := lenDropWhileLe Char.isDigit lx
      simp
      omega
    · simp [parsePrec, hc]

/-- A successful directive parse strictly shortens the input. -/
theorem parseDirective_rest_lt (l : List Char) (nm : String)
    (fl w : List Char) (pr : Option (List Char)) (conv : Char) (r8 : List Char)
    (h : parseDirective l = .ok (nm, fl, w, pr, conv, r8)) :
    r8.length < l.length := by
  unfold parseDirective at h
  dsimp only at h
  cases hd : l.dropWhile (fun x => x ≠ ')') with
  | nil => rw [hd] at h; simp at h
  | cons c r4 =>
    rw [hd] at h
    dsimp only at h
    have hr4 : r4.length < l.length := by
      have h1 : (c :: r4).length ≤ l.length := by
        rw [← hd]; exact lenDropWhileLe _ _
      simp at h1; omega
    have hr6 : (List.dropWhile Char.isDigit (List.dropWhile isPyFlag r4)).length ≤ r4.length := by
      calc (List.dropWhile Char.isDigit (List.dropWhile isPyFlag r4)).length
          ≤ (List.dropWhile isPyFlag r4).length := lenDropWhileLe _ _
        _ ≤ r4.length := lenDropWhileLe _ _
    have hpp := parsePrec_len (List.dropWhile Char.isDigit (List.dropWhile isPyFlag r4))
    cases hpr : (parsePrec (List.dropWhile Char.isDigit (List.dropWhile isPyFlag r4))).2 with
    | nil => rw [hpr] at h; simp at h
    | cons cv r8x =>
      rw [hpr] at h
      dsimp only at h
      have hr8 : r8 = r8x := by
        injection h with h'
        have := congrArg (fun t => t.2.2.2.2.2) h'
        simpa using this.symm
      subst hr8
      rw [hpr] at hpp
      simp at hpp
      omega

/-- The interpolation result does not depend on the fuel, once the fuel
covers the input length. -/
theorem interpGoF_irrel (M : String → Except PyErr PyVal) (f1 : Nat) :
    ∀ (f2 : Nat) (cs : List Char),
    cs.length ≤ f1 → cs.length ≤ f2 → interpGoF M f1 cs = interpGoF M f2 cs := by
  induction f1 with
  | zero =>
    intro f2 cs h1 _
    have hnil : cs = [] := by
      cases cs with
      | nil => rfl
      | cons a l => simp at h1
    subst hnil
    cases f2 <;> rfl
  | succ f1 ih =>
    intro f2 cs h1 h2
    cases cs with
    | nil => cases f2 <;> rfl
    | cons c rest =>
      cases f2 with
      | zero => simp at h2
      | succ f2 =>
        simp only [List.length_cons] at h1 h2
        show interpGoF M (f1 + 1) (c :: rest) = interpGoF M (f2 + 1) (c :: rest)
        unfold interpGoF
        dsimp only
        by_cases hc : c = '%'
        · rw [if_pos hc, if_pos hc]
          cases rest with
          | nil => rfl
          | cons c2 rest2 =>
            simp only [List.length_cons] at h1 h2
            dsimp only
            by_cases h2p : c2 = '%'
            · rw [if_pos h2p, if_pos h2p]
              rw [ih f2 rest2 (by omega) (by omega)]
            · rw [if_neg h2p, if_neg h2p]
              by_cases h3 : c2 = '('
              · rw [if_pos h3, if_pos h3]
                cases hp : parseDirective rest2 with
                | error e => rfl
                | ok tup =>
                  obtain ⟨nm, fl, w, pr, conv, r8⟩ := tup
                  have hlt := parseDirective_rest_lt _ _ _ _ _ _ _ hp
                  dsimp only
                  rw [ih f2 r8 (by omega) (by omega)]
              · rw [if_neg h3, if_neg h3]
        · rw [if_neg hc, if_neg hc]
          rw [ih f2 rest (by omega) (by omega)]

/-- Unfolding equation: a plain character is copied. -/
theorem interpList_char (M : String → Except PyErr PyVal) (c : Char)
    (rest : List Char) (hc : c ≠ '%') :
    interpList M (c :: rest) = (interpList M rest).map (fun t => c :: t) := by
  show interpGoF M (rest.length + 1) (c :: rest) = _
  unfold interpGoF
  dsimp only
  rw [if_neg hc]
  show (interpGoF M rest.length rest >>= fun t => Except.ok (c :: t)) = _
  cases hE : interpList M rest with
  | ok t =>
    rw [show interpGoF M rest.length rest = interpList M rest from rfl, hE]
    rfl
  | error e =>
    rw [show interpGoF M rest.length rest = interpList M rest from rfl, hE]
    rfl

/-- A percent-free block is interpolated verbatim. -/
theorem interpList_copy (M : String → Except PyErr PyVal) (cs rest : List Char)
    (h : ∀ c ∈ cs, c ≠ '%') :
    interpList M (cs ++ rest) = (interpList M rest).map (fun t => cs ++ t) := by
  induction cs with
  | nil =>
    cases hE : interpList M rest with
    | ok t => simp [hE, Except.map]
    | error e => simp [hE, Except.map]
  | cons c cs ih =>
    have hc := h c (by simp)
    have h' : ∀ x ∈ cs, x ≠ '%' := fun x hx => h x (by simp [hx])
    rw [List.cons_append, interpList_char M c _ hc, ih h']
    cases hE : interpList M rest with
    | ok t => simp [hE, Except.map]
    | error e => simp [hE, Except.map]

/-- A width-less, precision-less `%s` conversion renders `str(value)`
unchanged. -/
theorem convertVal_s (flags : List Char) (v : PyVal) :
    convertVal 's' flags [] Option.none v = .ok (pyStr v) := by
  unfold convertVal
  rw [if_pos (Or.inl rfl)]
  dsimp only
  rw [if_pos rfl]
  unfold pyAdjustStr pyLjust pyRjust natOfDigits
  cases flags.contains '-' <;> simp

/-- The directive parse at a rewritten (string-conversion) directive. -/
theorem parseDirective_mapped (name flagL tail : List Char)
    (hnm : ∀ c ∈ name, c ≠ ')') (hflagL : ∀ c ∈ flagL, isPyFlag c = true) :
    parseDirective (name ++ ')' :: (flagL ++ 's' :: tail)) =
      .ok (String.mk name, flagL, [], Option.none, 's', tail) := by
  unfold parseDirective
  obtain ⟨ht, hdw⟩ := span_append_all (fun x => x ≠ ')') name
    (')' :: (flagL ++ 's' :: tail))
    (fun c hc => by simp [hnm c hc])
    (fun c rs hcr => by injection hcr with h1 _; rw [← h1]; simp)
  rw [ht, hdw]
  dsimp only
  obtain ⟨ht2, hdw2⟩ := span_append_all isPyFlag flagL ('s' :: tail)
    hflagL (fun c rs hcr => by injection hcr with h1 _; rw [← h1]; decide)
  rw [ht2, hdw2]
  rw [show List.takeWhile Char.isDigit ('s' :: tail) = [] from by
    simp [List.takeWhile]]
  rw [show List.dropWhile Char.isDigit ('s' :: tail) = 's' :: tail from by
    simp [List.dropWhile]]
  rw [show parsePrec ('s' :: tail) = (Option.none, 's' :: tail) from by
    simp [parsePrec]]

/-- The interpolation step at one rewritten directive: the mapping value
is rendered by the `%s` conversion and prepended to the rest. -/
theorem interpList_mapped_dir (M : String → Except PyErr PyVal)
    (name flagL tail : List Char) (v : PyVal)
    (hnm : ∀ c ∈ name, c ≠ ')') (hflagL : ∀ c ∈ flagL, isPyFlag c = true)
    (hM : M (String.mk name) = .ok v) :
    interpList M ('%' :: ('(' :: (name ++ ')' :: (flagL ++ 's' :: tail)))) =
      (interpList M tail).map (fun t => (pyStr v).toList ++ t) := by
  show interpGoF M (('(' :: (name ++ ')' :: (flagL ++ 's' :: tail))).length + 1)
      ('%' :: ('(' :: (name ++ ')' :: (flagL ++ 's' :: tail)))) = _
  unfold interpGoF
  dsimp only
  rw [if_pos rfl]
  rw [if_neg (by decide), if_pos rfl]
  rw [parseDirective_mapped name flagL tail hnm hflagL]
  dsimp only
  rw [hM, except_bind_ok, convertVal_s, except_bind_ok]
  rw [interpGoF_irrel M _ tail.length tail
    (by simp [List.length_append]; omega) (le_refl _)]
  cases hE : interpList M tail with
  | ok t =>
    rw [show interpGoF M tail.length tail = interpList M tail from rfl, hE]
    rfl
  | error e =>
    rw [show interpGoF M tail.length tail = interpList M tail from rfl, hE]
    rfl

/-- Interpolating a rewritten well-formed format against a mapping that
yields the header labels produces the labels in place of every
directive. -/
theorem interp_segs (M : String → Except PyErr PyVal) (segs : List FmtSeg)
    (hwf : ∀ sg ∈ segs, SegWf sg)
    (hM : ∀ name flag width prec conv,
      FmtSeg.dir name flag width prec conv ∈ segs →
      M name = .ok (.str (if name = "pc" then "%" else pyUpper name))) :
    interpList M (fmtChars (segs.map segMap)) = .ok (headerChars segs) := by
  induction segs with
  | nil => rfl
  | cons sg rest ih =>
    have hsg := hwf sg (by simp)
    have hrest : ∀ x ∈ rest, SegWf x :=
      fun x hx => hwf x (List.mem_cons_of_mem _ hx)
    have hMrest : ∀ name flag width prec conv,
        FmtSeg.dir name flag width prec conv ∈ rest →
        M name = .ok (.str (if name = "pc" then "%" else pyUpper name)) :=
      fun n f w p cv hmem => hM n f w p cv (List.mem_cons_of_mem _ hmem)
    cases sg with
    | lit s =>
      show interpList M (s.toList ++ fmtChars (rest.map segMap)) =
        .ok (s.toList ++ headerChars rest)
      rw [interpList_copy M _ _
        (fun c hc => ((hsg : SegWf (.lit s)) c hc).1), ih hrest hMrest]
      rfl
    | dir name flag width prec conv =>
      obtain ⟨hne, hnm, hfl, hw, hwz, hprec, hcv⟩ :=
        (hsg : SegWf (.dir name flag width prec conv))
      have hshape :
          fmtChars ((FmtSeg.dir name flag width prec conv :: rest).map segMap) =
          '%' :: ('(' :: (name.toList ++ ')' ::
            (flagChars flag ++ 's' :: fmtChars (rest.map segMap)))) := by
        show (FmtSeg.dir name flag "" "" 's').chars ++ fmtChars (rest.map segMap) = _
        simp [FmtSeg.chars, List.append_assoc]
      rw [hshape]
      have hM1 := hM name flag width prec conv (by simp)
      rw [interpList_mapped_dir M name.toList (flagChars flag) _ _
        (fun c hc => ne_of_pred (hnm c hc) (by decide))
        (by
          cases flag with
          | none => intro c hc; simp [flagChars] at hc
          | some f =>
            intro c hc
            simp [flagChars] at hc
            rw [hc]
            exact pyflag_of_flag (hfl f rfl))
        hM1]
      rw [ih hrest hMrest]
      rfl

/- ### Claim C8 -/

/-- Appending a fresh binding makes its key found. -/
theorem lookup_append_self (d : PyDict) (k : String) (v : PyVal)
    (h : d.lookup k = Option.none) : (d ++ [(k, v)]).lookup k = some v := by
  induction d with
  | nil => simp [List.lookup]
  | cons hd tl ih =>
    cases hd with
    | mk k2 v2 =>
      by_cases hk : k = k2
      · subst hk; simp [List.lookup] at h
      · simp only [List.lookup, List.cons_append, beq_false_of_ne hk] at h ⊢
        exact ih h

/-- After `setdefault`, the key is always present. -/
theorem setdefault_isSome (d : PyDict) (k : String) (v : PyVal) :
    ((pySetdefault d k v).lookup k).isSome = true := by
  unfold pySetdefault
  by_cases h : (d.lookup k).isSome = true
  · rw [if_pos h]; exact h
  · rw [if_neg h]
    rw [lookup_append_self d k v (by
      cases hl : d.lookup k with
      | none => rfl
      | some w => rw [hl] at h; simp at h)]
    rfl

/-- The `pc` key is always present in the seeded defaults of an
`OutputMapping`. -/
theorem init_pc_isSome (defaults : Option PyDict) :
    (((OutputMapping.init defaults).self_defaults).lookup "pc").isSome = true := by
  unfold OutputMapping.init
  dsimp only
  exact setdefault_isSome _ _ _

/-- A list avoiding a character does not contain it. -/
theorem contains_eq_false_of_all_ne (l : List Char) (k : Char)
    (h : ∀ c ∈ l, c ≠ k) : l.contains k = false := by
  induction l with
  | nil => rfl
  | cons a l ih =>
    have ha : a ≠ k := h a (by simp)
    show List.elem k (a :: l) = false
    simp only [List.elem, beq_false_of_ne (Ne.symm ha)]
    exact ih (fun c hc => h c (by simp [hc]))

/-- Header resolution of a dot-free key that passes the field check
returns the display label (the shared core of claims C5 and C8). -/
theorem getitem_header_name (g : String → Option PyFormatter)
    (reg : FieldRegistry) (man : String → Bool) (defaults : PyDict)
    (name : String)
    (hnodot : pyContainsChar name '.' = false)
    (hfield : (reg name).isSome = true ∨ (defaults.lookup name).isSome = true ∨
      man name = true) :
    OutputMapping.getitem g reg man Option.none defaults name =
      .ok (.str (if name = "pc" then "%" else pyUpper name)) := by
  have hsplit : splitKeyFormats name = (name, []) := by
    unfold splitKeyFormats
    rw [if_neg (by rw [hnodot]; simp)]
  obtain ⟨F2, hC⟩ := composedFormatter_ok g reg man defaults name name []
    Option.none hsplit rfl hfield
  unfold OutputMapping.getitem
  rw [hC, except_bind_ok]

/-- No character of a well-formed format is an opening brace. -/
theorem fmtChars_ne_brace (segs : List FmtSeg) (hwf : ∀ sg ∈ segs, SegWf sg) :
    ∀ c ∈ fmtChars segs, c ≠ '\x7b' := by
  induction segs with
  | nil => intro c hc; simp [fmtChars] at hc
  | cons sg rest ih =>
    intro c hc
    have hsg := hwf sg (by simp)
    have hrest : ∀ x ∈ rest, SegWf x :=
      fun x hx => hwf x (List.mem_cons_of_mem _ hx)
    rcases List.mem_append.mp (show c ∈ sg.chars ++ fmtChars rest from hc) with hc | hc
    · cases sg with
      | lit s => exact ((hsg : SegWf (.lit s)) c hc).2.2
      | dir name flag width prec conv =>
        obtain ⟨hne, hnm, hfl, hw, hwz, hprec, hcv⟩ :=
          (hsg : SegWf (.dir name flag width prec conv))
        simp only [FmtSeg.chars, List.mem_cons, List.mem_append] at hc
        rcases hc with hc | hc | hc | hc | hc | hc
        · subst hc; decide
        · subst hc; decide
        · exact ne_of_pred (hnm c hc) (by decide)
        · subst hc; decide
        · cases flag with
          | none => simp [flagChars] at hc
          | some f =>
            simp [flagChars] at hc
            rw [hc]
            exact ne_of_pred (hfl f rfl) (by decide)
        · rcases hc with hc | hc | hc | hc
          · exact ne_of_pred (hw c hc) (by decide)
          · rcases hprec with hp | ⟨hhd, hds⟩
            · rw [hp] at hc; simp at hc
            · cases hpl : prec.toList with
              | nil => rw [hpl] at hc; simp at hc
              | cons a as =>
                rw [hpl] at hc hhd hds
                simp at hhd
                rcases List.mem_cons.mp hc with hc | hc
                · rw [hc, hhd]; decide
                · exact ne_of_pred (hds c (by simpa using hc)) (by decide)
          · rw [hc]; exact ne_of_pred hcv (by decide)
          · simp at hc
    · exact ih hrest c hc

/-- A string avoiding a pattern's first character does not start with
the pattern. -/
theorem pyStarts_false_of_ne_head (l : List Char) (k : Char) (p : String)
    (hp : p.toList.head? = some k) (h : ∀ c ∈ l, c ≠ k) :
    pyStarts (String.mk l) p = false := by
  unfold pyStarts
  apply decide_eq_false
  intro heq
  have heq2 : l.take p.toList.length = p.toList := heq
  cases hpl : p.toList with
  | nil => rw [hpl] at hp; simp at hp
  | cons a as =>
    rw [hpl] at hp heq2
    simp only [Option.some.injEq, List.head?] at hp
    cases l with
    | nil => simp at heq2
    | cons b bs =>
      simp only [List.length_cons, List.take_succ_cons] at heq2
      have hb : b = a := by
        have := congrArg List.head? heq2
        simpa using this
      exact h b (by simp) (hb.trans hp)

/-- Claim C8: for every interpolation-style format string made of
well-formed numeric directives over resolvable field names (and
brace-free, percent-free literals), header rendering first rewrites
every numeric conversion directive into a string conversion — so `%`
interpolation never receives a numeric directive against the upper-cased
text label — and renders the field labels as text, raising no error at
all; the two template engines are arbitrary, as the spec string cannot
select them. -/
theorem c8_header_rewrite_then_labels
    (engineA engineB : String → Option PyItem → Except PyErr String)
    (reg : FieldRegistry) (man : String → Bool) (defaults : Option PyDict)
    (segs : List FmtSeg)
    (hwf : ∀ sg ∈ segs, SegWf sg)
    (hok : ∀ sg ∈ segs, DirOk reg sg) :
    headerRewrite (String.mk (fmtChars segs)) =
      String.mk (fmtChars (segs.map segMap)) ∧
    format_item engineA engineB reg man (String.mk (fmtChars segs))
      Option.none defaults = .ok (headerRender segs) := by
  have hnb := fmtChars_ne_brace segs hwf
  have hrw : subScan (fmtChars segs) = fmtChars (segs.map segMap) :=
    subScan_segs segs hwf
  have hrewrite : headerRewrite (String.mk (fmtChars segs)) =
      String.mk (fmtChars (segs.map segMap)) := by
    show String.mk (subScan (fmtChars segs)) = _
    rw [hrw]
  refine ⟨hrewrite, ?_⟩
  unfold format_item
  rw [if_neg (by
    rw [pyStarts_false_of_ne_head (fmtChars segs) '\x7b' _ (by decide) hnb]
    simp)]
  rw [if_neg (by
    rw [pyStarts_false_of_ne_head (fmtChars segs) '\x7b' _ (by decide) hnb]
    simp)]
  dsimp only
  rw [hrewrite]
  unfold pyInterp
  rw [show (if (Option.none : Option PyItem).isNone = true
        then String.mk (fmtChars (segs.map segMap))
        else String.mk (fmtChars segs)).toList =
      fmtChars (segs.map segMap) from rfl]
  rw [interp_segs _ segs hwf (by
    intro name flag width prec conv hmem
    obtain ⟨hne, hnm, hfl, hw, hwz, hprec, hcv⟩ :=
      (hwf _ hmem : SegWf (.dir name flag width prec conv))
    apply getitem_header_name
    · exact contains_eq_false_of_all_ne _ _
        (fun c hc => ne_of_pred (hnm c hc) (by decide))
    · rcases (hok _ hmem : DirOk reg (.dir name flag width prec conv)) with hk | hk
      · exact Or.inl hk
      · subst hk
        exact Or.inr (Or.inl (init_pc_isSome defaults)))]
  rfl

/-- Claim C8 witness: the numeric directive `%(size)5d` is rewritten to
`%(size)s` and header rendering yields the upper-cased label as text. -/
theorem c8_header_rewrite_then_labels_witness :
    headerRewrite "x %(size)5d" = "x %(size)s" ∧
    format_item (fun _ _ => .error (.external "engine"))
      (fun _ _ => .error (.external "engine"))
      modelFields modelManifold "x %(size)5d" Option.none Option.none =
      .ok "x SIZE" := by
  have h := c8_header_rewrite_then_labels
    (fun _ _ => .error (.external "engine"))
    (fun _ _ => .error (.external "engine"))
    modelFields modelManifold Option.none c8segs (by decide) (by decide)
  have hs : String.mk (fmtChars c8segs) = "x %(size)5d" := by decide
  rw [hs] at h
  refine ⟨?_, ?_⟩
  · rw [h.1]; decide
  · rw [h.2]; decide
